import Mathlib

/-!
Shallow embedding of the sYCC→RGB colour transform and the component
upsampler of pylibjpeg-openjpeg (src/lib/interface/color.c and
src/lib/interface/decode.c), together with proofs of the behavioural
claims about them.

Modelling conventions.
* Machine integers: the C `int` samples become `Int`; the `size_t` /
  `OPJ_UINT32` loop counters become `Nat`.  Where the C code performs an
  unsigned subtraction that can wrap (only the `xoff`/`yoff`/width
  computations of the upsampler), the wraparound is made explicit with
  `% 2^32` (`usub32`); everywhere else the subtractions are guarded in the
  C code itself, so `Nat` truncated subtraction coincides with it.
* The three floating products of `sycc_to_rgb` are abstracted as
  integer-valued functions (a `ChromaMul` record): floating point is not
  modelled bit-exactly, and every theorem below uses only facts about the
  products (such as vanishing at argument 0) that hold for the IEEE
  computation.  A concrete scaled-integer instance `Fq` is provided for
  evaluating the model on concrete inputs.
* Allocation: `opj_image_data_alloc` / `malloc` / `opj_image_create`
  cannot be observed to fail in a functional model, so each allocation
  site receives a `Bool` telling whether it succeeds.  `opj_image_destroy`
  followed by `return NULL` is modelled by returning `none`.
* Buffers written by pointer walks are modelled as total functions
  `Nat → Pix` updated by `store`; the write cursor mirrors the C output
  pointer.  Buffer reads in the converters use `List.getD _ _ 0`
  (the C code never reads out of bounds there for the geometries the
  dispatcher admits); in the upsampler, where the claims are about bounds
  safety, every read and write is bounds-checked and failure is `none`.
-/

/-- An RGB triple of integer samples, the values written through the
`out_r/out_g/out_b` pointers of `sycc_to_rgb`. -/
abbrev Pix := Int × Int × Int

/-- Pointwise update of an output buffer modelled as a total function. -/
def store (f : Nat → Pix) (i : Nat) (v : Pix) : Nat → Pix :=
  fun j => if j = i then v else f j

/-- Saturating clamp to `[0, upb]`, the `if (v < 0) ... else if (v > upb)`
blocks of `sycc_to_rgb` (color.c lines 70-96). -/
def clamp (upb v : Int) : Int :=
  if v < 0 then 0 else if upb < v then upb else v

/-- The three floating-point chroma products of `sycc_to_rgb`:
`rc cr` stands for `(int)(1.402 * (float)cr)`,
`gc cb cr` for `(int)(0.344 * (float)cb + 0.714 * (float)cr)`,
`bc cb` for `(int)(1.772 * (float)cb)`.
Floating point is not modelled bit-exactly; the products are abstracted as
integer-valued functions, and the theorems below only use facts about them
(such as vanishing at 0) that hold for the IEEE computation. -/
structure ChromaMul where
  rc : Int → Int
  gc : Int → Int → Int
  bc : Int → Int

/-- `sycc_to_rgb` (color.c lines 60-98): subtract `offset` from `cb` and
`cr`, apply the linear transform and clamp each channel to `[0, upb]`. -/
def sycc_to_rgb (F : ChromaMul) (offset upb y cb cr : Int) : Pix :=
  let cb2 := cb - offset
  let cr2 := cr - offset
  (clamp upb (y + F.rc cr2),
   clamp upb (y - F.gc cb2 cr2),
   clamp upb (y + F.bc cb2))

/-- A concrete instance of the chroma products: exact scaled-integer
arithmetic with truncation toward zero, mirroring the constants 1.402,
0.344, 0.714 and 1.772 of the C code.  It agrees with the C floating
computation at every argument a theorem below evaluates it on
(in particular both vanish at 0). -/
def Fq : ChromaMul where
  rc := fun cr => (1402 * cr).tdiv 1000
  gc := fun cb cr => (344 * cb + 714 * cr).tdiv 1000
  bc := fun cb => (1772 * cb).tdiv 1000

/-- The `OPJ_COLOR_SPACE` tags used by the interface code. -/
inductive ColorSpace where
  | UNKNOWN
  | UNSPECIFIED
  | SRGB
  | GRAY
  | SYCC
  | EYCC
  | CMYK
deriving DecidableEq

/-- One `opj_image_comp_t`: the fields the colour/upsampling code touches.
(`alpha` and `resno_decoded`, which are only copied through, are omitted.)
The sample buffer is the row-major list `data`; well-formedness
(`data.length = w * h`) is a hypothesis of the theorems that need it. -/
structure Comp where
  dx : Nat
  dy : Nat
  w : Nat
  h : Nat
  x0 : Nat
  y0 : Nat
  prec : Nat
  sgnd : Bool
  data : List Int
deriving DecidableEq

instance : Inhabited Comp := ⟨⟨1, 1, 0, 0, 0, 0, 8, false, []⟩⟩

/-- An `opj_image_t`: reference-grid geometry, colour-space tag and the
component list (`numcomps` is `comps.length`). -/
structure Image where
  x0 : Nat
  y0 : Nat
  x1 : Nat
  y1 : Nat
  color_space : ColorSpace
  comps : List Comp
deriving DecidableEq

/-- `img->comps[i]` (only ever used at indices the C code also uses). -/
def Image.comp (img : Image) (i : Nat) : Comp := img.comps.getD i default

/-- Read of a sample buffer at an index, `p[i]` on a component's data. -/
def rd (l : List Int) (i : Nat) : Int := l.getD i 0

/-! ### sycc444_to_rgb (color.c lines 100-149)

The loop walks `y`, `cb`, `cr` and the three output pointers in lockstep
over `max = maxw * maxh` samples, so output sample `i` of each plane is the
conversion of input sample `i`.  The three output buffers are allocated
first; if any allocation fails the function frees the others and returns
with the image untouched (`goto fails`), which the `Bool` guard models. -/

def sycc444_to_rgb (F : ChromaMul) (a1 a2 a3 : Bool) (img : Image) : Image :=
  if a1 && a2 && a3 then
    let c0 := img.comp 0
    let c1 := img.comp 1
    let c2 := img.comp 2
    let offset : Int := 2 ^ (c0.prec - 1)
    let upb : Int := 2 ^ c0.prec - 1
    let m := c0.w * c0.h
    let pix : Nat → Pix := fun i =>
      sycc_to_rgb F offset upb (rd c0.data i) (rd c1.data i) (rd c2.data i)
    { img with
      color_space := ColorSpace.SRGB
      comps :=
        { c0 with data := (List.range m).map (fun i => (pix i).1) } ::
        { c1 with data := (List.range m).map (fun i => (pix i).2.1) } ::
        { c2 with data := (List.range m).map (fun i => (pix i).2.2) } ::
        img.comps.drop 3 }
  else img

/-! ### sycc422_to_rgb (color.c lines 152-238)

State of the pointer walk: `ky` is the offset of the `y` read pointer,
`kc` the shared offset of the `cb`/`cr` pointers, `k` the shared offset of
the `r`/`g`/`b` write pointers, `out` the output planes written so far. -/

structure CState where
  ky : Nat
  kc : Nat
  k : Nat
  out : Nat → Pix

/-- One `sycc_to_rgb(offset, upb, *y, cbv, crv, r, g, b)` call followed by
`++y; ++r; ++g; ++b`. -/
def emit (F : ChromaMul) (offset upb : Int) (Y : Nat → Int) (cbv crv : Int)
    (s : CState) : CState :=
  { s with
    ky := s.ky + 1
    k := s.k + 1
    out := store s.out s.k (sycc_to_rgb F offset upb (Y s.ky) cbv crv) }

/-- The paired inner loop `for (j = 0; j < (loopmaxw & ~1); j += 2)` of
sycc422_to_rgb: each iteration emits two luma samples sharing one chroma
sample then advances `cb`/`cr`; the iteration count `loopmaxw / 2` is
passed explicitly. -/
def pair422 (F : ChromaMul) (offset upb : Int) (Y CB CR : Nat → Int) :
    Nat → CState → CState
  | 0, s => s
  | n + 1, s =>
    let s1 := emit F offset upb Y (CB s.kc) (CR s.kc) s
    let s2 := emit F offset upb Y (CB s1.kc) (CR s1.kc) s1
    pair422 F offset upb Y CB CR n { s2 with kc := s2.kc + 1 }

/-- The optional neutral first column of a sycc422_to_rgb row
(color.c lines 187-193): emitted with `cb = cr = 0` when `offx > 0`,
without touching the chroma pointers. -/
def head422 (F : ChromaMul) (offset upb : Int) (Y : Nat → Int) (offx : Nat)
    (s : CState) : CState :=
  if 0 < offx then emit F offset upb Y 0 0 s else s

/-- The optional trailing unpaired column of a sycc422_to_rgb row
(color.c lines 209-217, reached iff `loopmaxw` is odd): one conversion
consuming one chroma sample. -/
def tail422 (F : ChromaMul) (offset upb : Int) (Y CB CR : Nat → Int)
    (loopmaxw : Nat) (s : CState) : CState :=
  if loopmaxw % 2 = 1 then
    let s3 := emit F offset upb Y (CB s.kc) (CR s.kc) s
    { s3 with kc := s3.kc + 1 }
  else s

/-- One iteration of the row loop of sycc422_to_rgb: the optional neutral
first column (`offx > 0`), the paired loop (`loopmaxw / 2` iterations),
and the optional trailing unpaired column. -/
def row422 (F : ChromaMul) (offset upb : Int) (Y CB CR : Nat → Int)
    (offx loopmaxw : Nat) (s : CState) : CState :=
  tail422 F offset upb Y CB CR loopmaxw
    (pair422 F offset upb Y CB CR (loopmaxw / 2)
      (head422 F offset upb Y offx s))

/-- The outer loop `for (i = 0; i < maxh; ++i)` of sycc422_to_rgb. -/
def rows422 (F : ChromaMul) (offset upb : Int) (Y CB CR : Nat → Int)
    (offx loopmaxw : Nat) : Nat → CState → CState
  | 0, s => s
  | n + 1, s =>
    rows422 F offset upb Y CB CR offx loopmaxw n
      (row422 F offset upb Y CB CR offx loopmaxw s)

def sycc422_to_rgb (F : ChromaMul) (a1 a2 a3 : Bool) (img : Image) : Image :=
  if a1 && a2 && a3 then
    let c0 := img.comp 0
    let c1 := img.comp 1
    let c2 := img.comp 2
    let offset : Int := 2 ^ (c0.prec - 1)
    let upb : Int := 2 ^ c0.prec - 1
    let maxw := c0.w
    let maxh := c0.h
    let m := maxw * maxh
    let offx := img.x0 % 2
    let loopmaxw := maxw - offx
    let fin := rows422 F offset upb (rd c0.data) (rd c1.data) (rd c2.data)
      offx loopmaxw maxh ⟨0, 0, 0, fun _ => (0, 0, 0)⟩
    { img with
      color_space := ColorSpace.SRGB
      comps :=
        { c0 with data := (List.range m).map (fun i => (fin.out i).1) } ::
        { c1 with
          data := (List.range m).map (fun i => (fin.out i).2.1)
          w := c0.w, h := c0.h, dx := c0.dx, dy := c0.dy } ::
        { c2 with
          data := (List.range m).map (fun i => (fin.out i).2.2)
          w := c0.w, h := c0.h, dx := c0.dx, dy := c0.dy } ::
        img.comps.drop 3 }
  else img

/-! ### sycc420_to_rgb (color.c lines 241-397)

State of the pointer walk: `ky`/`k` are the current-row read/write
cursors (`y` and `r`/`g`/`b`), `kny`/`kn` the next-row cursors (`ny` and
`nr`/`ng`/`nb`), `kc` the shared chroma cursor. -/

structure DState where
  ky : Nat
  kc : Nat
  k : Nat
  kny : Nat
  kn : Nat
  out : Nat → Pix

/-- A conversion written through the current-row pointers (`*y` → `r,g,b`)
followed by `++y; ++r; ++g; ++b`. -/
def emitC (F : ChromaMul) (offset upb : Int) (Y : Nat → Int) (cbv crv : Int)
    (s : DState) : DState :=
  { s with
    ky := s.ky + 1
    k := s.k + 1
    out := store s.out s.k (sycc_to_rgb F offset upb (Y s.ky) cbv crv) }

/-- A conversion written through the next-row pointers (`*ny` → `nr,ng,nb`)
followed by `++ny; ++nr; ++ng; ++nb`. -/
def emitN (F : ChromaMul) (offset upb : Int) (Y : Nat → Int) (cbv crv : Int)
    (s : DState) : DState :=
  { s with
    kny := s.kny + 1
    kn := s.kn + 1
    out := store s.out s.kn (sycc_to_rgb F offset upb (Y s.kny) cbv crv) }

/-- The paired inner loop of sycc420_to_rgb (color.c lines 309-333): each
iteration converts two current-row and two next-row luma samples, all four
sharing one chroma sample, then advances `cb`/`cr`. -/
def pair420 (F : ChromaMul) (offset upb : Int) (Y CB CR : Nat → Int) :
    Nat → DState → DState
  | 0, s => s
  | n + 1, s =>
    let s1 := emitC F offset upb Y (CB s.kc) (CR s.kc) s
    let s2 := emitC F offset upb Y (CB s1.kc) (CR s1.kc) s1
    let s3 := emitN F offset upb Y (CB s2.kc) (CR s2.kc) s2
    let s4 := emitN F offset upb Y (CB s3.kc) (CR s3.kc) s3
    pair420 F offset upb Y CB CR n { s4 with kc := s4.kc + 1 }

/-- The odd-x0 boundary block of a sycc420_to_rgb row pair (color.c lines
296-307): the current row's first column gets neutral chroma, the next
row's first column reads the current chroma sample, and the chroma
pointers are not advanced. -/
def head420 (F : ChromaMul) (offset upb : Int) (Y CB CR : Nat → Int)
    (offx : Nat) (s : DState) : DState :=
  if 0 < offx then
    let t := emitC F offset upb Y 0 0 s
    emitN F offset upb Y (CB t.kc) (CR t.kc) t
  else s

/-- The trailing unpaired column of a sycc420_to_rgb row pair (color.c
lines 334-348, reached iff `loopmaxw` is odd): both rows share one more
chroma sample, which is then consumed. -/
def tail420 (F : ChromaMul) (offset upb : Int) (Y CB CR : Nat → Int)
    (loopmaxw : Nat) (s : DState) : DState :=
  if loopmaxw % 2 = 1 then
    let t := emitC F offset upb Y (CB s.kc) (CR s.kc) s
    let t2 := emitN F offset upb Y (CB t.kc) (CR t.kc) t
    { t2 with kc := t2.kc + 1 }
  else s

/-- One iteration of the row-pair loop of sycc420_to_rgb (color.c lines
288-353): set the next-row pointers one row ahead, handle the odd-x0
boundary, run the paired loop, handle the trailing unpaired column,
finally skip the row already written via the next-row pointers
(`y += maxw; r += maxw; ...`). -/
def rowPair420 (F : ChromaMul) (offset upb : Int) (Y CB CR : Nat → Int)
    (maxw offx loopmaxw : Nat) (s : DState) : DState :=
  let s3 := tail420 F offset upb Y CB CR loopmaxw
    (pair420 F offset upb Y CB CR (loopmaxw / 2)
      (head420 F offset upb Y CB CR offx
        { s with kny := s.ky + maxw, kn := s.k + maxw }))
  { s3 with ky := s3.ky + maxw, k := s3.k + maxw }

/-- The outer row-pair loop `for (i = 0; i < (loopmaxh & ~1); i += 2)`,
iterated `loopmaxh / 2` times. -/
def rowsPair420 (F : ChromaMul) (offset upb : Int) (Y CB CR : Nat → Int)
    (maxw offx loopmaxw : Nat) : Nat → DState → DState
  | 0, s => s
  | n + 1, s =>
    rowsPair420 F offset upb Y CB CR maxw offx loopmaxw n
      (rowPair420 F offset upb Y CB CR maxw offx loopmaxw s)

/-- The neutral first row emitted when `img->y0` is odd (color.c lines
276-286): every column of the row converted with `cb = cr = 0`, the
chroma pointers untouched. -/
def neutralRow420 (F : ChromaMul) (offset upb : Int) (Y : Nat → Int) :
    Nat → DState → DState
  | 0, s => s
  | n + 1, s => neutralRow420 F offset upb Y n (emitC F offset upb Y 0 0 s)

/-- The paired column loop of the final unpaired luma row (color.c lines
357-373): pairs from column 0 over the full width `maxw`, every pair
consuming one chroma sample; no odd-x0 handling. -/
def lastPairs420 (F : ChromaMul) (offset upb : Int) (Y CB CR : Nat → Int) :
    Nat → DState → DState
  | 0, s => s
  | n + 1, s =>
    let s1 := emitC F offset upb Y (CB s.kc) (CR s.kc) s
    let s2 := emitC F offset upb Y (CB s1.kc) (CR s1.kc) s1
    lastPairs420 F offset upb Y CB CR n { s2 with kc := s2.kc + 1 }

/-- The trailing single conversion of the final unpaired luma row
(color.c lines 374-376, reached iff `maxw` is odd): a bare
`sycc_to_rgb` call that advances no pointer. -/
def lastTail420 (F : ChromaMul) (offset upb : Int) (Y CB CR : Nat → Int)
    (maxw : Nat) (s : DState) : DState :=
  if maxw % 2 = 1 then
    { s with
      out := store s.out s.k
        (sycc_to_rgb F offset upb (Y s.ky) (CB s.kc) (CR s.kc)) }
  else s

/-- The final unpaired luma row of sycc420_to_rgb (color.c lines 354-377):
the paired loop over `maxw & ~1`, then the trailing single conversion. -/
def lastRow420 (F : ChromaMul) (offset upb : Int) (Y CB CR : Nat → Int)
    (maxw : Nat) (s : DState) : DState :=
  lastTail420 F offset upb Y CB CR maxw
    (lastPairs420 F offset upb Y CB CR (maxw / 2) s)

/-- The full pointer walk of sycc420_to_rgb starting from offset 0 on all
pointers: the optional neutral first row (`offy > 0`), the row-pair loop
(`loopmaxh / 2` iterations), and the final unpaired luma row (reached iff
`loopmaxh` is odd, the condition `i < loopmaxh` at color.c line 354). -/
def run420 (F : ChromaMul) (offset upb : Int) (Y CB CR : Nat → Int)
    (maxw offx loopmaxw offy loopmaxh : Nat) : DState :=
  let s0 : DState := ⟨0, 0, 0, 0, 0, fun _ => (0, 0, 0)⟩
  let s1 := if 0 < offy then neutralRow420 F offset upb Y maxw s0 else s0
  let s2 := rowsPair420 F offset upb Y CB CR maxw offx loopmaxw
    (loopmaxh / 2) s1
  if loopmaxh % 2 = 1 then lastRow420 F offset upb Y CB CR maxw s2 else s2

def sycc420_to_rgb (F : ChromaMul) (a1 a2 a3 : Bool) (img : Image) : Image :=
  if a1 && a2 && a3 then
    let c0 := img.comp 0
    let c1 := img.comp 1
    let c2 := img.comp 2
    let offset : Int := 2 ^ (c0.prec - 1)
    let upb : Int := 2 ^ c0.prec - 1
    let maxw := c0.w
    let maxh := c0.h
    let m := maxw * maxh
    let offx := img.x0 % 2
    let loopmaxw := maxw - offx
    let offy := img.y0 % 2
    let loopmaxh := maxh - offy
    let Y := rd c0.data
    let CB := rd c1.data
    let CR := rd c2.data
    let fin := run420 F offset upb Y CB CR maxw offx loopmaxw offy loopmaxh
    { img with
      color_space := ColorSpace.SRGB
      comps :=
        { c0 with data := (List.range m).map (fun i => (fin.out i).1) } ::
        { c1 with
          data := (List.range m).map (fun i => (fin.out i).2.1)
          w := c0.w, h := c0.h, dx := c0.dx, dy := c0.dy } ::
        { c2 with
          data := (List.range m).map (fun i => (fin.out i).2.2)
          w := c0.w, h := c0.h, dx := c0.dx, dy := c0.dy } ::
        img.comps.drop 3 }
  else img

/-- `color_sycc_to_rgb` (color.c lines 400-434): fewer than three
components retags the image grayscale; otherwise the three supported
`(dx,dy)` layouts dispatch to their handlers and anything else is a
no-op. -/
def color_sycc_to_rgb (F : ChromaMul) (a1 a2 a3 : Bool) (img : Image) :
    Image :=
  if img.comps.length < 3 then { img with color_space := ColorSpace.GRAY }
  else if (img.comp 0).dx = 1 ∧ (img.comp 0).dy = 1
      ∧ (img.comp 1).dx = 2 ∧ (img.comp 1).dy = 2
      ∧ (img.comp 2).dx = 2 ∧ (img.comp 2).dy = 2 then
    sycc420_to_rgb F a1 a2 a3 img
  else if (img.comp 0).dx = 1 ∧ (img.comp 0).dy = 1
      ∧ (img.comp 1).dx = 2 ∧ (img.comp 1).dy = 1
      ∧ (img.comp 2).dx = 2 ∧ (img.comp 2).dy = 1 then
    sycc422_to_rgb F a1 a2 a3 img
  else if (img.comp 0).dx = 1 ∧ (img.comp 0).dy = 1
      ∧ (img.comp 1).dx = 1 ∧ (img.comp 1).dy = 1
      ∧ (img.comp 2).dx = 1 ∧ (img.comp 2).dy = 1 then
    sycc444_to_rgb F a1 a2 a3 img
  else img

/-! ### upsample_image_components (decode.c lines 252-449)

All reads of the source plane and writes of the destination plane are
bounds-checked (`none` on violation), since the safety claims are about
exactly those bounds. -/

/-- 32-bit unsigned subtraction `a - b` on `OPJ_UINT32` values. -/
def usub32 (a b : Nat) : Nat :=
  (a % 2 ^ 32 + (2 ^ 32 - b % 2 ^ 32)) % 2 ^ 32

/-- Write the row `row` into `dst` at offset `d`; fails if the write would
run past the end of the buffer. -/
def writeAt (dst : List Int) (d : Nat) (row : List Int) : Option (List Int) :=
  if d + row.length ≤ dst.length then
    some (dst.take d ++ row ++ dst.drop (d + row.length))
  else none

/-- The leading zero-filled rows `for (y = 0; y < yoff; ++y) memset(...)`
(decode.c lines 353-356); returns the advanced destination offset. -/
def zeroRows (w : Nat) : Nat → Nat → List Int → Option (Nat × List Int)
  | 0, d, dst => some (d, dst)
  | n + 1, d, dst => do
    let dst2 ← writeAt dst d (List.replicate w 0)
    zeroRows w n (d + w) dst2

/-- The block-replication loop
`for (; x < w - (dx-1); x += dx, ++xorg) for (dx2 = 0; dx2 < dx; ++dx2)
l_dst[x + dx2] = l_src[xorg]` as the list of cells it writes: `n`
iterations, each reading one source sample and emitting `dx` copies. -/
def repBlocks (src : List Int) (dx : Nat) : Nat → Nat → Option (List Int)
  | _, 0 => some []
  | sIdx, n + 1 => do
    let v ← src[sIdx]?
    let rest ← repBlocks src dx (sIdx + 1) n
    some (List.replicate dx v ++ rest)

/-- One destination row of the upsampling fill (decode.c lines 365-384 and
405-425): `xoff` leading zeros, the block-replication loop, then the tail
loop `for (; x < w; ++x) l_dst[x] = l_src[xorg]`.  The while loop
`for (; x < w - (dx-1); x += dx)` (entered only under the guard
`w > dx - 1`) performs exactly `(w - xoff) / dx` iterations when
`dx ≥ 1`, which is the count handed to `repBlocks`. -/
def buildRow (src : List Int) (sIdx xoff dx w : Nat) : Option (List Int) := do
  let n := (w - xoff) / dx
  let blocks ← repBlocks src dx sIdx n
  let x := xoff + dx * n
  let tl ←
    if x < w then do
      let v ← src[sIdx + n]?
      some (List.replicate (w - x) v)
    else some []
  some (List.replicate xoff (0 : Int) ++ blocks ++ tl)

/-- The vertical replication loop
`for (dy2 = 1; dy2 < dy; ++dy2) { memcpy(l_dst, l_dst - w, w * 4); l_dst += w; }`
(decode.c lines 387-395 and 429-436): each step copies the previous row;
fails if the copy reads before the buffer or writes past its end. -/
def copyRows (w : Nat) : Nat → Nat → List Int → Option (Nat × List Int)
  | 0, d, dst => some (d, dst)
  | m + 1, d, dst =>
    if w ≤ d then do
      let dst2 ← writeAt dst d ((dst.drop (d - w)).take w)
      copyRows w m (d + w) dst2
    else none

/-- The main row-group loop `for (; y < h - (dy-1); y += dy)` (entered only
under the guard `h > dy - 1`), iterated `n` times: fill one row from the
source row at `sIdx`, replicate it `dy - 1` times, advance the source by
one row (`l_src += l_org_cmp->w`). -/
def fillGroups (src : List Int) (worg xoff dx w dy : Nat) :
    Nat → Nat → Nat → List Int → Option (Nat × List Int)
  | 0, _, d, dst => some (d, dst)
  | n + 1, sIdx, d, dst => do
    let row ← buildRow src sIdx xoff dx w
    let dst2 ← writeAt dst d row
    let (d2, dst3) ← copyRows w (dy - 1) (d + w) dst2
    fillGroups src worg xoff dx w dy n (sIdx + worg) d2 dst3

/-- The whole per-component fill of `upsample_image_components` (decode.c
lines 353-437) on a destination plane of `w * h` cells: the `yoff` leading
zero rows, the `(h - yoff) / dy` full row groups (that count being the
number of iterations of the guarded loop `for (; y < h - (dy-1); y += dy)`
for `dy ≥ 1`), and the final partial group `if (y < h)` filling one more
row and copying it down to row `h - 1`. -/
def upsampleFill (src : List Int) (worg xoff yoff dx dy w h : Nat) :
    Option (List Int) := do
  let dst0 := List.replicate (w * h) (0 : Int)
  let (d1, dst1) ← zeroRows w yoff 0 dst0
  let n := (h - yoff) / dy
  let (d2, dst2) ← fillGroups src worg xoff dx w dy n 0 d1 dst1
  let y2 := yoff + dy * n
  if y2 < h then do
    let row ← buildRow src (worg * n) xoff dx w
    let dst3 ← writeAt dst2 d2 row
    let (_, dst4) ← copyRows w (h - (y2 + 1)) (d2 + w) dst3
    some dst4
  else some dst2

/-- Per-component work of `upsample_image_components`: the new component
shape from the first parameter loop (decode.c lines 284-308: `dx = dy = 1`,
origin moved to the image origin, width/height widened to the reference
grid for sub-sampled axes), the `xoff`/`yoff` offsets in `OPJ_UINT32`
arithmetic, the invalid-geometry check (lines 345-351), and the fill.
Components already at `dx = dy = 1` keep their data via the `memcpy`
branch (lines 438-444). -/
def upsampleComp (img : Image) (c : Comp) : Option Comp :=
  if 1 < c.dx ∨ 1 < c.dy then
    let wN := if 1 < c.dx then usub32 img.x1 img.x0 else c.w
    let hN := if 1 < c.dy then usub32 img.y1 img.y0 else c.h
    let xoff := usub32 (c.dx * c.x0) img.x0
    let yoff := usub32 (c.dy * c.y0) img.y0
    if c.dx ≤ xoff ∨ c.dy ≤ yoff then none
    else do
      let dataN ← upsampleFill c.data c.w xoff yoff c.dx c.dy wN hN
      some { c with
        dx := 1, dy := 1, x0 := img.x0, y0 := img.y0
        w := wN, h := hN, data := dataN }
  else
    some { c with dx := 1, dy := 1, x0 := img.x0, y0 := img.y0 }

/-- The per-component loop `for (ii = 0; ii < numcomps; ++ii)` of
`upsample_image_components` (decode.c lines 326-445): components are
processed in order and the first failure aborts the whole function. -/
def upsampleComps (img : Image) : List Comp → Option (List Comp)
  | [] => some []
  | c :: rest => do
    let c2 ← upsampleComp img c
    let rest2 ← upsampleComps img rest
    some (c2 :: rest2)

/-- `upsample_image_components` (decode.c lines 252-449).  `aParams` is
whether the `malloc` of the component-parameter array succeeds, `aImage`
whether `opj_image_create` succeeds; `none` models
`opj_image_destroy(original); return NULL;`.  If no component has
`dx > 1` or `dy > 1` the original image is returned as is (lines
260-273). -/
def upsample_image_components (aParams aImage : Bool) (orig : Image) :
    Option Image :=
  if orig.comps.all (fun c => c.dx ≤ 1 && c.dy ≤ 1) then some orig
  else if !aParams then none
  else if !aImage then none
  else do
    let newComps ← upsampleComps orig orig.comps
    some { orig with comps := newComps }

/-! ## Basic lemmas -/

lemma clamp_nonneg (upb v : Int) (h : 0 ≤ upb) : 0 ≤ clamp upb v := by
  unfold clamp; split_ifs <;> omega

lemma clamp_le (upb v : Int) (h : 0 ≤ upb) : clamp upb v ≤ upb := by
  unfold clamp; split_ifs <;> omega

lemma clamp_of_mem (upb v : Int) (h0 : 0 ≤ v) (h1 : v ≤ upb) :
    clamp upb v = v := by
  unfold clamp; split_ifs <;> omega

/-- All three channels of a pixel lie in `[0, upb]`. -/
def pixIn (upb : Int) (p : Pix) : Prop :=
  (0 ≤ p.1 ∧ p.1 ≤ upb) ∧ (0 ≤ p.2.1 ∧ p.2.1 ≤ upb) ∧
    (0 ≤ p.2.2 ∧ p.2.2 ≤ upb)

lemma sycc_pixIn (F : ChromaMul) (offset upb y cb cr : Int) (h : 0 ≤ upb) :
    pixIn upb (sycc_to_rgb F offset upb y cb cr) :=
  ⟨⟨clamp_nonneg _ _ h, clamp_le _ _ h⟩,
   ⟨clamp_nonneg _ _ h, clamp_le _ _ h⟩,
   ⟨clamp_nonneg _ _ h, clamp_le _ _ h⟩⟩

@[simp] lemma store_same (f : Nat → Pix) (i : Nat) (v : Pix) :
    store f i v i = v := by simp [store]

lemma store_ne (f : Nat → Pix) (i : Nat) (v : Pix) (j : Nat) (h : j ≠ i) :
    store f i v j = f j := by simp [store, h]

@[simp] lemma emit_ky (F : ChromaMul) (offset upb : Int) (Y : Nat → Int)
    (cbv crv : Int) (s : CState) :
    (emit F offset upb Y cbv crv s).ky = s.ky + 1 := rfl

@[simp] lemma emit_kc (F : ChromaMul) (offset upb : Int) (Y : Nat → Int)
    (cbv crv : Int) (s : CState) :
    (emit F offset upb Y cbv crv s).kc = s.kc := rfl

@[simp] lemma emit_k (F : ChromaMul) (offset upb : Int) (Y : Nat → Int)
    (cbv crv : Int) (s : CState) :
    (emit F offset upb Y cbv crv s).k = s.k + 1 := rfl

@[simp] lemma emit_out (F : ChromaMul) (offset upb : Int) (Y : Nat → Int)
    (cbv crv : Int) (s : CState) :
    (emit F offset upb Y cbv crv s).out =
      store s.out s.k (sycc_to_rgb F offset upb (Y s.ky) cbv crv) := rfl

/-! ## Characterization of the sycc422_to_rgb pointer walk -/


lemma pair422_spec (F : ChromaMul) (offset upb : Int) (Y CB CR : Nat → Int)
    (n : Nat) (s : CState) :
    (pair422 F offset upb Y CB CR n s).ky = s.ky + 2 * n ∧
    (pair422 F offset upb Y CB CR n s).kc = s.kc + n ∧
    (pair422 F offset upb Y CB CR n s).k = s.k + 2 * n ∧
    ∀ j, (pair422 F offset upb Y CB CR n s).out j =
      if s.k ≤ j ∧ j < s.k + 2 * n then
        sycc_to_rgb F offset upb (Y (s.ky + (j - s.k)))
          (CB (s.kc + (j - s.k) / 2)) (CR (s.kc + (j - s.k) / 2))
      else s.out j := by
  induction n generalizing s with
  | zero =>
    refine ⟨by simp [pair422], by simp [pair422], by simp [pair422],
      fun j => ?_⟩
    simp only [pair422]
    rw [if_neg (by omega)]
  | succ n ih =>
    have hstep : pair422 F offset upb Y CB CR (n + 1) s =
        pair422 F offset upb Y CB CR n
          ⟨s.ky + 1 + 1, s.kc + 1, s.k + 1 + 1,
            store
              (store s.out s.k
                (sycc_to_rgb F offset upb (Y s.ky) (CB s.kc) (CR s.kc)))
              (s.k + 1)
              (sycc_to_rgb F offset upb (Y (s.ky + 1)) (CB s.kc) (CR s.kc))⟩ :=
      rfl
    rw [hstep]
    obtain ⟨hky, hkc, hk, hout⟩ := ih
      ⟨s.ky + 1 + 1, s.kc + 1, s.k + 1 + 1,
        store
          (store s.out s.k
            (sycc_to_rgb F offset upb (Y s.ky) (CB s.kc) (CR s.kc)))
          (s.k + 1)
          (sycc_to_rgb F offset upb (Y (s.ky + 1)) (CB s.kc) (CR s.kc))⟩
    refine ⟨by rw [hky]; dsimp only; omega, by rw [hkc]; dsimp only; omega,
      by rw [hk]; dsimp only; omega, fun j => ?_⟩
    rw [hout j]
    dsimp only
    by_cases h1 : s.k + 1 + 1 ≤ j ∧ j < s.k + 1 + 1 + 2 * n
    · rw [if_pos h1, if_pos (by omega)]
      have e1 : s.ky + 1 + 1 + (j - (s.k + 1 + 1)) = s.ky + (j - s.k) := by
        omega
      have e2 : s.kc + 1 + (j - (s.k + 1 + 1)) / 2 = s.kc + (j - s.k) / 2 := by
        omega
      rw [e1, e2]
    · rw [if_neg h1]
      by_cases h2 : j = s.k + 1
      · subst h2
        rw [store_same, if_pos (by omega)]
        have e1 : s.ky + (s.k + 1 - s.k) = s.ky + 1 := by omega
        have e2 : s.kc + (s.k + 1 - s.k) / 2 = s.kc := by omega
        rw [e1, e2]
      · rw [store_ne _ _ _ _ h2]
        by_cases h3 : j = s.k
        · subst h3
          rw [store_same, if_pos (by omega)]
          have e1 : s.ky + (s.k - s.k) = s.ky := by omega
          have e2 : s.kc + (s.k - s.k) / 2 = s.kc := by omega
          rw [e1, e2]
        · rw [store_ne _ _ _ _ h3, if_neg (by omega)]

lemma head422_zero (F : ChromaMul) (offset upb : Int) (Y : Nat → Int)
    (s : CState) : head422 F offset upb Y 0 s = s := by
  unfold head422
  rw [if_neg (show ¬(0:Nat) < 0 by omega)]

lemma head422_pos (F : ChromaMul) (offset upb : Int) (Y : Nat → Int)
    (offx : Nat) (h : 0 < offx) (s : CState) :
    head422 F offset upb Y offx s =
      ⟨s.ky + 1, s.kc, s.k + 1,
        store s.out s.k (sycc_to_rgb F offset upb (Y s.ky) 0 0)⟩ := by
  unfold head422
  rw [if_pos h]
  rfl

lemma tail422_even (F : ChromaMul) (offset upb : Int) (Y CB CR : Nat → Int)
    (loopmaxw : Nat) (h : loopmaxw % 2 = 0) (s : CState) :
    tail422 F offset upb Y CB CR loopmaxw s = s := by
  unfold tail422
  rw [if_neg (by omega)]

lemma tail422_odd (F : ChromaMul) (offset upb : Int) (Y CB CR : Nat → Int)
    (loopmaxw : Nat) (h : loopmaxw % 2 = 1) (s : CState) :
    tail422 F offset upb Y CB CR loopmaxw s =
      ⟨s.ky + 1, s.kc + 1, s.k + 1,
        store s.out s.k
          (sycc_to_rgb F offset upb (Y s.ky) (CB s.kc) (CR s.kc))⟩ := by
  unfold tail422
  rw [if_pos h]
  rfl

lemma row422_spec (F : ChromaMul) (offset upb : Int) (Y CB CR : Nat → Int)
    (offx loopmaxw maxw : Nat) (hoffx : offx ≤ 1)
    (hmw : maxw = offx + loopmaxw) (s : CState) :
    (row422 F offset upb Y CB CR offx loopmaxw s).ky = s.ky + maxw ∧
    (row422 F offset upb Y CB CR offx loopmaxw s).kc
      = s.kc + (loopmaxw / 2 + loopmaxw % 2) ∧
    (row422 F offset upb Y CB CR offx loopmaxw s).k = s.k + maxw ∧
    ∀ j, (row422 F offset upb Y CB CR offx loopmaxw s).out j =
      if s.k ≤ j ∧ j < s.k + maxw then
        if j = s.k ∧ 0 < offx then sycc_to_rgb F offset upb (Y s.ky) 0 0
        else
          sycc_to_rgb F offset upb (Y (s.ky + (j - s.k)))
            (CB (s.kc + (j - s.k - offx) / 2))
            (CR (s.kc + (j - s.k - offx) / 2))
      else s.out j := by
  have hcase : offx = 0 ∨ offx = 1 := by omega
  unfold row422
  rcases hcase with h0 | h1
  · subst h0
    rw [head422_zero]
    obtain ⟨pky, pkc, pk, pout⟩ :=
      pair422_spec F offset upb Y CB CR (loopmaxw / 2) s
    rcases Nat.mod_two_eq_zero_or_one loopmaxw with hp | hp
    · rw [tail422_even F offset upb Y CB CR loopmaxw hp]
      refine ⟨by rw [pky]; omega, by rw [pkc]; omega, by rw [pk]; omega,
        fun j => ?_⟩
      rw [pout j]
      by_cases h2 : s.k ≤ j ∧ j < s.k + 2 * (loopmaxw / 2)
      · rw [if_pos h2, if_pos (show s.k ≤ j ∧ j < s.k + maxw by omega),
          if_neg (show ¬(j = s.k ∧ 0 < 0) by omega)]
        have e2 : s.kc + (j - s.k) / 2 = s.kc + (j - s.k - 0) / 2 := by omega
        rw [e2]
      · rw [if_neg h2, if_neg (show ¬(s.k ≤ j ∧ j < s.k + maxw) by omega)]
    · rw [tail422_odd F offset upb Y CB CR loopmaxw hp]
      dsimp only
      rw [pky, pkc, pk]
      refine ⟨by omega, by omega, by omega, fun j => ?_⟩
      by_cases hj : j = s.k + 2 * (loopmaxw / 2)
      · rw [hj, store_same,
          if_pos (show s.k ≤ s.k + 2 * (loopmaxw / 2) ∧
            s.k + 2 * (loopmaxw / 2) < s.k + maxw by omega),
          if_neg (show ¬(s.k + 2 * (loopmaxw / 2) = s.k ∧ 0 < 0) by omega)]
        have e1 : s.ky + 2 * (loopmaxw / 2)
            = s.ky + (s.k + 2 * (loopmaxw / 2) - s.k) := by omega
        have e2 : s.kc + loopmaxw / 2
            = s.kc + (s.k + 2 * (loopmaxw / 2) - s.k - 0) / 2 := by omega
        rw [e1, e2]
      · rw [store_ne _ _ _ _ hj, pout j]
        by_cases h2 : s.k ≤ j ∧ j < s.k + 2 * (loopmaxw / 2)
        · rw [if_pos h2, if_pos (show s.k ≤ j ∧ j < s.k + maxw by omega),
            if_neg (show ¬(j = s.k ∧ 0 < 0) by omega)]
          have e2 : s.kc + (j - s.k) / 2 = s.kc + (j - s.k - 0) / 2 := by
            omega
          rw [e2]
        · rw [if_neg h2,
            if_neg (show ¬(s.k ≤ j ∧ j < s.k + maxw) by omega)]
  · subst h1
    rw [head422_pos F offset upb Y 1 (by omega)]
    obtain ⟨pky, pkc, pk, pout⟩ :=
      pair422_spec F offset upb Y CB CR (loopmaxw / 2)
        ⟨s.ky + 1, s.kc, s.k + 1,
          store s.out s.k (sycc_to_rgb F offset upb (Y s.ky) 0 0)⟩
    dsimp only at pky pkc pk pout
    rcases Nat.mod_two_eq_zero_or_one loopmaxw with hp | hp
    · rw [tail422_even F offset upb Y CB CR loopmaxw hp]
      refine ⟨by rw [pky]; omega, by rw [pkc]; omega, by rw [pk]; omega,
        fun j => ?_⟩
      rw [pout j]
      by_cases h2 : s.k + 1 ≤ j ∧ j < s.k + 1 + 2 * (loopmaxw / 2)
      · rw [if_pos h2, if_pos (show s.k ≤ j ∧ j < s.k + maxw by omega),
          if_neg (show ¬(j = s.k ∧ 0 < 1) by omega)]
        have e1 : s.ky + 1 + (j - (s.k + 1)) = s.ky + (j - s.k) := by omega
        have e2 : s.kc + (j - (s.k + 1)) / 2 = s.kc + (j - s.k - 1) / 2 := by
          omega
        rw [e1, e2]
      · rw [if_neg h2]
        by_cases h3 : j = s.k
        · rw [h3, store_same,
            if_pos (show s.k ≤ s.k ∧ s.k < s.k + maxw by omega),
            if_pos (show s.k = s.k ∧ 0 < 1 by omega)]
        · rw [store_ne _ _ _ _ h3,
            if_neg (show ¬(s.k ≤ j ∧ j < s.k + maxw) by omega)]
    · rw [tail422_odd F offset upb Y CB CR loopmaxw hp]
      dsimp only
      rw [pky, pkc, pk]
      refine ⟨by omega, by omega, by omega, fun j => ?_⟩
      by_cases hj : j = s.k + 1 + 2 * (loopmaxw / 2)
      · rw [hj, store_same,
          if_pos (show s.k ≤ s.k + 1 + 2 * (loopmaxw / 2) ∧
            s.k + 1 + 2 * (loopmaxw / 2) < s.k + maxw by omega),
          if_neg (show ¬(s.k + 1 + 2 * (loopmaxw / 2) = s.k ∧ 0 < 1) by
            omega)]
        have e1 : s.ky + 1 + 2 * (loopmaxw / 2)
            = s.ky + (s.k + 1 + 2 * (loopmaxw / 2) - s.k) := by omega
        have e2 : s.kc + loopmaxw / 2
            = s.kc + (s.k + 1 + 2 * (loopmaxw / 2) - s.k - 1) / 2 := by omega
        rw [e1, e2]
      · rw [store_ne _ _ _ _ hj, pout j]
        by_cases h2 : s.k + 1 ≤ j ∧ j < s.k + 1 + 2 * (loopmaxw / 2)
        · rw [if_pos h2, if_pos (show s.k ≤ j ∧ j < s.k + maxw by omega),
            if_neg (show ¬(j = s.k ∧ 0 < 1) by omega)]
          have e1 : s.ky + 1 + (j - (s.k + 1)) = s.ky + (j - s.k) := by omega
          have e2 : s.kc + (j - (s.k + 1)) / 2 = s.kc + (j - s.k - 1) / 2 := by
            omega
          rw [e1, e2]
        · rw [if_neg h2]
          by_cases h3 : j = s.k
          · rw [h3, store_same,
              if_pos (show s.k ≤ s.k ∧ s.k < s.k + maxw by omega),
              if_pos (show s.k = s.k ∧ 0 < 1 by omega)]
          · rw [store_ne _ _ _ _ h3,
              if_neg (show ¬(s.k ≤ j ∧ j < s.k + maxw) by omega)]

lemma rows422_spec (F : ChromaMul) (offset upb : Int) (Y CB CR : Nat → Int)
    (offx loopmaxw maxw : Nat) (hoffx : offx ≤ 1)
    (hmw : maxw = offx + loopmaxw) (n : Nat) (s : CState) :
    (rows422 F offset upb Y CB CR offx loopmaxw n s).ky = s.ky + n * maxw ∧
    (rows422 F offset upb Y CB CR offx loopmaxw n s).kc
      = s.kc + n * (loopmaxw / 2 + loopmaxw % 2) ∧
    (rows422 F offset upb Y CB CR offx loopmaxw n s).k = s.k + n * maxw ∧
    (∀ i x, i < n → x < maxw →
      (rows422 F offset upb Y CB CR offx loopmaxw n s).out
        (s.k + i * maxw + x) =
      if x = 0 ∧ 0 < offx then
        sycc_to_rgb F offset upb (Y (s.ky + i * maxw)) 0 0
      else
        sycc_to_rgb F offset upb (Y (s.ky + i * maxw + x))
          (CB (s.kc + i * (loopmaxw / 2 + loopmaxw % 2) + (x - offx) / 2))
          (CR (s.kc + i * (loopmaxw / 2 + loopmaxw % 2) + (x - offx) / 2))) ∧
    (∀ j, j < s.k ∨ s.k + n * maxw ≤ j →
      (rows422 F offset upb Y CB CR offx loopmaxw n s).out j = s.out j) := by
  induction n generalizing s with
  | zero =>
    refine ⟨by simp [rows422], by simp [rows422], by simp [rows422],
      fun i x hi hx => by omega, fun j hj => by simp [rows422]⟩
  | succ n ih =>
    have hstep : rows422 F offset upb Y CB CR offx loopmaxw (n + 1) s
        = rows422 F offset upb Y CB CR offx loopmaxw n
            (row422 F offset upb Y CB CR offx loopmaxw s) := rfl
    rw [hstep]
    obtain ⟨rky, rkc, rk, rout⟩ :=
      row422_spec F offset upb Y CB CR offx loopmaxw maxw hoffx hmw s
    obtain ⟨iky, ikc, ik, iout, ipres⟩ :=
      ih (row422 F offset upb Y CB CR offx loopmaxw s)
    rw [rky] at iky
    rw [rkc] at ikc
    rw [rk] at ik
    rw [rk, rky, rkc] at iout
    rw [rk] at ipres
    refine ⟨by rw [iky, Nat.succ_mul]; omega, by rw [ikc, Nat.succ_mul]; omega,
      by rw [ik, Nat.succ_mul]; omega, fun i x hi hx => ?_, fun j hj => ?_⟩
    · match i with
      | 0 =>
        have hidx : s.k + 0 * maxw + x = s.k + x := by omega
        rw [hidx, ipres (s.k + x) (by omega), rout (s.k + x)]
        rw [if_pos (show s.k ≤ s.k + x ∧ s.k + x < s.k + maxw by omega)]
        by_cases hx0 : x = 0 ∧ 0 < offx
        · rw [if_pos (show s.k + x = s.k ∧ 0 < offx by omega),
            if_pos hx0]
          have e1 : s.ky + 0 * maxw = s.ky := by omega
          rw [e1]
        · rw [if_neg (show ¬(s.k + x = s.k ∧ 0 < offx) by omega),
            if_neg hx0]
          have e1 : s.ky + (s.k + x - s.k) = s.ky + 0 * maxw + x := by omega
          have e2 : s.kc + (s.k + x - s.k - offx) / 2
              = s.kc + 0 * (loopmaxw / 2 + loopmaxw % 2) + (x - offx) / 2 := by
            omega
          rw [e1, e2]
      | i' + 1 =>
        have hidx : s.k + (i' + 1) * maxw + x
            = s.k + maxw + i' * maxw + x := by rw [Nat.succ_mul]; omega
        rw [hidx, iout i' x (by omega) hx]
        by_cases hx0 : x = 0 ∧ 0 < offx
        · rw [if_pos hx0, if_pos hx0]
          have e1 : s.ky + maxw + i' * maxw
              = s.ky + (i' + 1) * maxw := by rw [Nat.succ_mul]; omega
          rw [e1]
        · rw [if_neg hx0, if_neg hx0]
          have e1 : s.ky + maxw + i' * maxw + x
              = s.ky + (i' + 1) * maxw + x := by rw [Nat.succ_mul]; omega
          have e2 : s.kc + (loopmaxw / 2 + loopmaxw % 2)
                + i' * (loopmaxw / 2 + loopmaxw % 2) + (x - offx) / 2
              = s.kc + (i' + 1) * (loopmaxw / 2 + loopmaxw % 2)
                + (x - offx) / 2 := by rw [Nat.succ_mul]; omega
          rw [e1, e2]
    · have hj2 : j < s.k + maxw ∨ s.k + maxw + n * maxw ≤ j := by
        rcases hj with hl | hr
        · exact Or.inl (by omega)
        · refine Or.inr ?_
          rw [Nat.succ_mul] at hr
          omega
      rw [ipres j hj2, rout j]
      rcases hj with hl | hr
      · rw [if_neg (show ¬(s.k ≤ j ∧ j < s.k + maxw) by omega)]
      · rw [Nat.succ_mul] at hr
        rw [if_neg (show ¬(s.k ≤ j ∧ j < s.k + maxw) by omega)]

/-! ## Characterization of the sycc420_to_rgb pointer walk -/

@[simp] lemma emitC_ky (F : ChromaMul) (offset upb : Int) (Y : Nat → Int)
    (cbv crv : Int) (s : DState) :
    (emitC F offset upb Y cbv crv s).ky = s.ky + 1 := rfl

@[simp] lemma emitC_kc (F : ChromaMul) (offset upb : Int) (Y : Nat → Int)
    (cbv crv : Int) (s : DState) :
    (emitC F offset upb Y cbv crv s).kc = s.kc := rfl

@[simp] lemma emitC_k (F : ChromaMul) (offset upb : Int) (Y : Nat → Int)
    (cbv crv : Int) (s : DState) :
    (emitC F offset upb Y cbv crv s).k = s.k + 1 := rfl

@[simp] lemma emitC_kny (F : ChromaMul) (offset upb : Int) (Y : Nat → Int)
    (cbv crv : Int) (s : DState) :
    (emitC F offset upb Y cbv crv s).kny = s.kny := rfl

@[simp] lemma emitC_kn (F : ChromaMul) (offset upb : Int) (Y : Nat → Int)
    (cbv crv : Int) (s : DState) :
    (emitC F offset upb Y cbv crv s).kn = s.kn := rfl

@[simp] lemma emitC_out (F : ChromaMul) (offset upb : Int) (Y : Nat → Int)
    (cbv crv : Int) (s : DState) :
    (emitC F offset upb Y cbv crv s).out =
      store s.out s.k (sycc_to_rgb F offset upb (Y s.ky) cbv crv) := rfl

@[simp] lemma emitN_ky (F : ChromaMul) (offset upb : Int) (Y : Nat → Int)
    (cbv crv : Int) (s : DState) :
    (emitN F offset upb Y cbv crv s).ky = s.ky := rfl

@[simp] lemma emitN_kc (F : ChromaMul) (offset upb : Int) (Y : Nat → Int)
    (cbv crv : Int) (s : DState) :
    (emitN F offset upb Y cbv crv s).kc = s.kc := rfl

@[simp] lemma emitN_k (F : ChromaMul) (offset upb : Int) (Y : Nat → Int)
    (cbv crv : Int) (s : DState) :
    (emitN F offset upb Y cbv crv s).k = s.k := rfl

@[simp] lemma emitN_kny (F : ChromaMul) (offset upb : Int) (Y : Nat → Int)
    (cbv crv : Int) (s : DState) :
    (emitN F offset upb Y cbv crv s).kny = s.kny + 1 := rfl

@[simp] lemma emitN_kn (F : ChromaMul) (offset upb : Int) (Y : Nat → Int)
    (cbv crv : Int) (s : DState) :
    (emitN F offset upb Y cbv crv s).kn = s.kn + 1 := rfl

@[simp] lemma emitN_out (F : ChromaMul) (offset upb : Int) (Y : Nat → Int)
    (cbv crv : Int) (s : DState) :
    (emitN F offset upb Y cbv crv s).out =
      store s.out s.kn (sycc_to_rgb F offset upb (Y s.kny) cbv crv) := rfl

lemma pair420_spec (F : ChromaMul) (offset upb : Int) (Y CB CR : Nat → Int)
    (n : Nat) (s : DState) (hdisj : s.k + 2 * n ≤ s.kn) :
    (pair420 F offset upb Y CB CR n s).ky = s.ky + 2 * n ∧
    (pair420 F offset upb Y CB CR n s).kc = s.kc + n ∧
    (pair420 F offset upb Y CB CR n s).k = s.k + 2 * n ∧
    (pair420 F offset upb Y CB CR n s).kny = s.kny + 2 * n ∧
    (pair420 F offset upb Y CB CR n s).kn = s.kn + 2 * n ∧
    ∀ j, (pair420 F offset upb Y CB CR n s).out j =
      if s.k ≤ j ∧ j < s.k + 2 * n then
        sycc_to_rgb F offset upb (Y (s.ky + (j - s.k)))
          (CB (s.kc + (j - s.k) / 2)) (CR (s.kc + (j - s.k) / 2))
      else if s.kn ≤ j ∧ j < s.kn + 2 * n then
        sycc_to_rgb F offset upb (Y (s.kny + (j - s.kn)))
          (CB (s.kc + (j - s.kn) / 2)) (CR (s.kc + (j - s.kn) / 2))
      else s.out j := by
  induction n generalizing s with
  | zero =>
    refine ⟨by simp [pair420], by simp [pair420], by simp [pair420],
      by simp [pair420], by simp [pair420], fun j => ?_⟩
    simp only [pair420]
    rw [if_neg (by omega), if_neg (by omega)]
  | succ n ih =>
    have hstep : pair420 F offset upb Y CB CR (n + 1) s
        = pair420 F offset upb Y CB CR n
          ⟨s.ky + 1 + 1, s.kc + 1, s.k + 1 + 1, s.kny + 1 + 1, s.kn + 1 + 1,
            store
              (store
                (store
                  (store s.out s.k
                    (sycc_to_rgb F offset upb (Y s.ky) (CB s.kc) (CR s.kc)))
                  (s.k + 1)
                  (sycc_to_rgb F offset upb (Y (s.ky + 1)) (CB s.kc)
                    (CR s.kc)))
                s.kn
                (sycc_to_rgb F offset upb (Y s.kny) (CB s.kc) (CR s.kc)))
              (s.kn + 1)
              (sycc_to_rgb F offset upb (Y (s.kny + 1)) (CB s.kc)
                (CR s.kc))⟩ := rfl
    rw [hstep]
    obtain ⟨hky, hkc, hk, hkny, hkn, hout⟩ := ih
      ⟨s.ky + 1 + 1, s.kc + 1, s.k + 1 + 1, s.kny + 1 + 1, s.kn + 1 + 1,
        store
          (store
            (store
              (store s.out s.k
                (sycc_to_rgb F offset upb (Y s.ky) (CB s.kc) (CR s.kc)))
              (s.k + 1)
              (sycc_to_rgb F offset upb (Y (s.ky + 1)) (CB s.kc) (CR s.kc)))
            s.kn
            (sycc_to_rgb F offset upb (Y s.kny) (CB s.kc) (CR s.kc)))
          (s.kn + 1)
          (sycc_to_rgb F offset upb (Y (s.kny + 1)) (CB s.kc) (CR s.kc))⟩
      (by dsimp only; omega)
    dsimp only at hky hkc hk hkny hkn hout
    refine ⟨by rw [hky]; omega, by rw [hkc]; omega, by rw [hk]; omega,
      by rw [hkny]; omega, by rw [hkn]; omega, fun j => ?_⟩
    rw [hout j]
    by_cases h1 : s.k + 1 + 1 ≤ j ∧ j < s.k + 1 + 1 + 2 * n
    · rw [if_pos h1,
        if_pos (show s.k ≤ j ∧ j < s.k + 2 * (n + 1) by omega)]
      have e1 : s.ky + 1 + 1 + (j - (s.k + 1 + 1)) = s.ky + (j - s.k) := by
        omega
      have e2 : s.kc + 1 + (j - (s.k + 1 + 1)) / 2 = s.kc + (j - s.k) / 2 := by
        omega
      rw [e1, e2]
    · rw [if_neg h1]
      by_cases h2 : s.kn + 1 + 1 ≤ j ∧ j < s.kn + 1 + 1 + 2 * n
      · rw [if_pos h2,
          if_neg (show ¬(s.k ≤ j ∧ j < s.k + 2 * (n + 1)) by omega),
          if_pos (show s.kn ≤ j ∧ j < s.kn + 2 * (n + 1) by omega)]
        have e1 : s.kny + 1 + 1 + (j - (s.kn + 1 + 1))
            = s.kny + (j - s.kn) := by omega
        have e2 : s.kc + 1 + (j - (s.kn + 1 + 1)) / 2
            = s.kc + (j - s.kn) / 2 := by omega
        rw [e1, e2]
      · rw [if_neg h2]
        by_cases h3 : j = s.kn + 1
        · rw [h3, store_same,
            if_neg (show ¬(s.k ≤ s.kn + 1 ∧ s.kn + 1 < s.k + 2 * (n + 1)) by
              omega),
            if_pos (show s.kn ≤ s.kn + 1 ∧ s.kn + 1 < s.kn + 2 * (n + 1) by
              omega)]
          have e1 : s.kny + (s.kn + 1 - s.kn) = s.kny + 1 := by omega
          have e2 : s.kc + (s.kn + 1 - s.kn) / 2 = s.kc := by omega
          rw [e1, e2]
        · rw [store_ne _ _ _ _ h3]
          by_cases h4 : j = s.kn
          · rw [h4, store_same,
              if_neg (show ¬(s.k ≤ s.kn ∧ s.kn < s.k + 2 * (n + 1)) by
                omega),
              if_pos (show s.kn ≤ s.kn ∧ s.kn < s.kn + 2 * (n + 1) by
                omega)]
            have e1 : s.kny + (s.kn - s.kn) = s.kny := by omega
            have e2 : s.kc + (s.kn - s.kn) / 2 = s.kc := by omega
            rw [e1, e2]
          · rw [store_ne _ _ _ _ h4]
            by_cases h5 : j = s.k + 1
            · rw [h5, store_same,
                if_pos (show s.k ≤ s.k + 1 ∧ s.k + 1 < s.k + 2 * (n + 1) by
                  omega)]
              have e1 : s.ky + (s.k + 1 - s.k) = s.ky + 1 := by omega
              have e2 : s.kc + (s.k + 1 - s.k) / 2 = s.kc := by omega
              rw [e1, e2]
            · rw [store_ne _ _ _ _ h5]
              by_cases h6 : j = s.k
              · rw [h6, store_same,
                  if_pos (show s.k ≤ s.k ∧ s.k < s.k + 2 * (n + 1) by omega)]
                have e1 : s.ky + (s.k - s.k) = s.ky := by omega
                have e2 : s.kc + (s.k - s.k) / 2 = s.kc := by omega
                rw [e1, e2]
              · rw [store_ne _ _ _ _ h6,
                  if_neg (show ¬(s.k ≤ j ∧ j < s.k + 2 * (n + 1)) by omega),
                  if_neg (show ¬(s.kn ≤ j ∧ j < s.kn + 2 * (n + 1)) by
                    omega)]

lemma head420_zero (F : ChromaMul) (offset upb : Int) (Y CB CR : Nat → Int)
    (s : DState) : head420 F offset upb Y CB CR 0 s = s := by
  unfold head420
  rw [if_neg (show ¬(0:Nat) < 0 by omega)]

lemma head420_pos (F : ChromaMul) (offset upb : Int) (Y CB CR : Nat → Int)
    (offx : Nat) (h : 0 < offx) (s : DState) :
    head420 F offset upb Y CB CR offx s =
      ⟨s.ky + 1, s.kc, s.k + 1, s.kny + 1, s.kn + 1,
        store (store s.out s.k (sycc_to_rgb F offset upb (Y s.ky) 0 0))
          s.kn (sycc_to_rgb F offset upb (Y s.kny) (CB s.kc) (CR s.kc))⟩ := by
  unfold head420
  rw [if_pos h]
  rfl

lemma tail420_even (F : ChromaMul) (offset upb : Int) (Y CB CR : Nat → Int)
    (loopmaxw : Nat) (h : loopmaxw % 2 = 0) (s : DState) :
    tail420 F offset upb Y CB CR loopmaxw s = s := by
  unfold tail420
  rw [if_neg (by omega)]

lemma tail420_odd (F : ChromaMul) (offset upb : Int) (Y CB CR : Nat → Int)
    (loopmaxw : Nat) (h : loopmaxw % 2 = 1) (s : DState) :
    tail420 F offset upb Y CB CR loopmaxw s =
      ⟨s.ky + 1, s.kc + 1, s.k + 1, s.kny + 1, s.kn + 1,
        store
          (store s.out s.k
            (sycc_to_rgb F offset upb (Y s.ky) (CB s.kc) (CR s.kc)))
          s.kn
          (sycc_to_rgb F offset upb (Y s.kny) (CB s.kc) (CR s.kc))⟩ := by
  unfold tail420
  rw [if_pos h]
  rfl

lemma lastTail420_even (F : ChromaMul) (offset upb : Int)
    (Y CB CR : Nat → Int) (maxw : Nat) (h : maxw % 2 = 0) (s : DState) :
    lastTail420 F offset upb Y CB CR maxw s = s := by
  unfold lastTail420
  rw [if_neg (by omega)]

lemma lastTail420_odd (F : ChromaMul) (offset upb : Int)
    (Y CB CR : Nat → Int) (maxw : Nat) (h : maxw % 2 = 1) (s : DState) :
    lastTail420 F offset upb Y CB CR maxw s =
      { s with
        out := store s.out s.k
          (sycc_to_rgb F offset upb (Y s.ky) (CB s.kc) (CR s.kc)) } := by
  unfold lastTail420
  rw [if_pos h]

lemma neutralRow420_spec (F : ChromaMul) (offset upb : Int) (Y : Nat → Int)
    (n : Nat) (s : DState) :
    (neutralRow420 F offset upb Y n s).ky = s.ky + n ∧
    (neutralRow420 F offset upb Y n s).kc = s.kc ∧
    (neutralRow420 F offset upb Y n s).k = s.k + n ∧
    (neutralRow420 F offset upb Y n s).kny = s.kny ∧
    (neutralRow420 F offset upb Y n s).kn = s.kn ∧
    ∀ j, (neutralRow420 F offset upb Y n s).out j =
      if s.k ≤ j ∧ j < s.k + n then
        sycc_to_rgb F offset upb (Y (s.ky + (j - s.k))) 0 0
      else s.out j := by
  induction n generalizing s with
  | zero =>
    refine ⟨by simp [neutralRow420], by simp [neutralRow420],
      by simp [neutralRow420], by simp [neutralRow420],
      by simp [neutralRow420], fun j => ?_⟩
    simp only [neutralRow420]
    rw [if_neg (by omega)]
  | succ n ih =>
    have hstep : neutralRow420 F offset upb Y (n + 1) s
        = neutralRow420 F offset upb Y n
          ⟨s.ky + 1, s.kc, s.k + 1, s.kny, s.kn,
            store s.out s.k (sycc_to_rgb F offset upb (Y s.ky) 0 0)⟩ := rfl
    rw [hstep]
    obtain ⟨hky, hkc, hk, hkny, hkn, hout⟩ := ih
      ⟨s.ky + 1, s.kc, s.k + 1, s.kny, s.kn,
        store s.out s.k (sycc_to_rgb F offset upb (Y s.ky) 0 0)⟩
    dsimp only at hky hkc hk hkny hkn hout
    refine ⟨by rw [hky]; omega, by rw [hkc], by rw [hk]; omega,
      by rw [hkny], by rw [hkn], fun j => ?_⟩
    rw [hout j]
    by_cases h1 : s.k + 1 ≤ j ∧ j < s.k + 1 + n
    · rw [if_pos h1, if_pos (show s.k ≤ j ∧ j < s.k + (n + 1) by omega)]
      have e1 : s.ky + 1 + (j - (s.k + 1)) = s.ky + (j - s.k) := by omega
      rw [e1]
    · rw [if_neg h1]
      by_cases h2 : j = s.k
      · rw [h2, store_same,
          if_pos (show s.k ≤ s.k ∧ s.k < s.k + (n + 1) by omega)]
        have e1 : s.ky + (s.k - s.k) = s.ky := by omega
        rw [e1]
      · rw [store_ne _ _ _ _ h2,
          if_neg (show ¬(s.k ≤ j ∧ j < s.k + (n + 1)) by omega)]

lemma lastPairs420_spec (F : ChromaMul) (offset upb : Int)
    (Y CB CR : Nat → Int) (n : Nat) (s : DState) :
    (lastPairs420 F offset upb Y CB CR n s).ky = s.ky + 2 * n ∧
    (lastPairs420 F offset upb Y CB CR n s).kc = s.kc + n ∧
    (lastPairs420 F offset upb Y CB CR n s).k = s.k + 2 * n ∧
    (lastPairs420 F offset upb Y CB CR n s).kny = s.kny ∧
    (lastPairs420 F offset upb Y CB CR n s).kn = s.kn ∧
    ∀ j, (lastPairs420 F offset upb Y CB CR n s).out j =
      if s.k ≤ j ∧ j < s.k + 2 * n then
        sycc_to_rgb F offset upb (Y (s.ky + (j - s.k)))
          (CB (s.kc + (j - s.k) / 2)) (CR (s.kc + (j - s.k) / 2))
      else s.out j := by
  induction n generalizing s with
  | zero =>
    refine ⟨by simp [lastPairs420], by simp [lastPairs420],
      by simp [lastPairs420], by simp [lastPairs420],
      by simp [lastPairs420], fun j => ?_⟩
    simp only [lastPairs420]
    rw [if_neg (by omega)]
  | succ n ih =>
    have hstep : lastPairs420 F offset upb Y CB CR (n + 1) s
        = lastPairs420 F offset upb Y CB CR n
          ⟨s.ky + 1 + 1, s.kc + 1, s.k + 1 + 1, s.kny, s.kn,
            store
              (store s.out s.k
                (sycc_to_rgb F offset upb (Y s.ky) (CB s.kc) (CR s.kc)))
              (s.k + 1)
              (sycc_to_rgb F offset upb (Y (s.ky + 1)) (CB s.kc)
                (CR s.kc))⟩ := rfl
    rw [hstep]
    obtain ⟨hky, hkc, hk, hkny, hkn, hout⟩ := ih
      ⟨s.ky + 1 + 1, s.kc + 1, s.k + 1 + 1, s.kny, s.kn,
        store
          (store s.out s.k
            (sycc_to_rgb F offset upb (Y s.ky) (CB s.kc) (CR s.kc)))
          (s.k + 1)
          (sycc_to_rgb F offset upb (Y (s.ky + 1)) (CB s.kc) (CR s.kc))⟩
    dsimp only at hky hkc hk hkny hkn hout
    refine ⟨by rw [hky]; omega, by rw [hkc]; omega, by rw [hk]; omega,
      by rw [hkny], by rw [hkn], fun j => ?_⟩
    rw [hout j]
    by_cases h1 : s.k + 1 + 1 ≤ j ∧ j < s.k + 1 + 1 + 2 * n
    · rw [if_pos h1, if_pos (show s.k ≤ j ∧ j < s.k + 2 * (n + 1) by omega)]
      have e1 : s.ky + 1 + 1 + (j - (s.k + 1 + 1)) = s.ky + (j - s.k) := by
        omega
      have e2 : s.kc + 1 + (j - (s.k + 1 + 1)) / 2 = s.kc + (j - s.k) / 2 := by
        omega
      rw [e1, e2]
    · rw [if_neg h1]
      by_cases h2 : j = s.k + 1
      · rw [h2, store_same,
          if_pos (show s.k ≤ s.k + 1 ∧ s.k + 1 < s.k + 2 * (n + 1) by omega)]
        have e1 : s.ky + (s.k + 1 - s.k) = s.ky + 1 := by omega
        have e2 : s.kc + (s.k + 1 - s.k) / 2 = s.kc := by omega
        rw [e1, e2]
      · rw [store_ne _ _ _ _ h2]
        by_cases h3 : j = s.k
        · rw [h3, store_same,
            if_pos (show s.k ≤ s.k ∧ s.k < s.k + 2 * (n + 1) by omega)]
          have e1 : s.ky + (s.k - s.k) = s.ky := by omega
          have e2 : s.kc + (s.k - s.k) / 2 = s.kc := by omega
          rw [e1, e2]
        · rw [store_ne _ _ _ _ h3,
            if_neg (show ¬(s.k ≤ j ∧ j < s.k + 2 * (n + 1)) by omega)]

lemma lastRow420_spec (F : ChromaMul) (offset upb : Int)
    (Y CB CR : Nat → Int) (maxw : Nat) (s : DState) :
    (lastRow420 F offset upb Y CB CR maxw s).ky = s.ky + 2 * (maxw / 2) ∧
    (lastRow420 F offset upb Y CB CR maxw s).kc = s.kc + maxw / 2 ∧
    (lastRow420 F offset upb Y CB CR maxw s).k = s.k + 2 * (maxw / 2) ∧
    ∀ j, (lastRow420 F offset upb Y CB CR maxw s).out j =
      if s.k ≤ j ∧ j < s.k + maxw then
        sycc_to_rgb F offset upb (Y (s.ky + (j - s.k)))
          (CB (s.kc + (j - s.k) / 2)) (CR (s.kc + (j - s.k) / 2))
      else s.out j := by
  unfold lastRow420
  obtain ⟨pky, pkc, pk, pkny, pkn, pout⟩ :=
    lastPairs420_spec F offset upb Y CB CR (maxw / 2) s
  rcases Nat.mod_two_eq_zero_or_one maxw with hp | hp
  · rw [lastTail420_even F offset upb Y CB CR maxw hp]
    refine ⟨pky, pkc, pk, fun j => ?_⟩
    rw [pout j]
    by_cases h1 : s.k ≤ j ∧ j < s.k + 2 * (maxw / 2)
    · rw [if_pos h1, if_pos (show s.k ≤ j ∧ j < s.k + maxw by omega)]
    · rw [if_neg h1, if_neg (show ¬(s.k ≤ j ∧ j < s.k + maxw) by omega)]
  · rw [lastTail420_odd F offset upb Y CB CR maxw hp]
    dsimp only
    rw [pky, pkc, pk]
    refine ⟨rfl, rfl, rfl, fun j => ?_⟩
    by_cases hj : j = s.k + 2 * (maxw / 2)
    · rw [hj, store_same,
        if_pos (show s.k ≤ s.k + 2 * (maxw / 2) ∧
          s.k + 2 * (maxw / 2) < s.k + maxw by omega)]
      have e1 : s.ky + 2 * (maxw / 2)
          = s.ky + (s.k + 2 * (maxw / 2) - s.k) := by omega
      have e2 : s.kc + maxw / 2
          = s.kc + (s.k + 2 * (maxw / 2) - s.k) / 2 := by omega
      rw [e1, e2]
    · rw [store_ne _ _ _ _ hj, pout j]
      by_cases h1 : s.k ≤ j ∧ j < s.k + 2 * (maxw / 2)
      · rw [if_pos h1, if_pos (show s.k ≤ j ∧ j < s.k + maxw by omega)]
      · rw [if_neg h1, if_neg (show ¬(s.k ≤ j ∧ j < s.k + maxw) by omega)]

lemma sycc_congr (F : ChromaMul) (offset upb : Int) (Y CB CR : Nat → Int)
    (a a' b b' : Nat) (ha : a = a') (hb : b = b') :
    sycc_to_rgb F offset upb (Y a) (CB b) (CR b)
      = sycc_to_rgb F offset upb (Y a') (CB b') (CR b') := by
  rw [ha, hb]

lemma sycc_congrY (F : ChromaMul) (offset upb : Int) (Y : Nat → Int)
    (cb cr : Int) (a a' : Nat) (ha : a = a') :
    sycc_to_rgb F offset upb (Y a) cb cr
      = sycc_to_rgb F offset upb (Y a') cb cr := by
  rw [ha]

lemma rowPair420_spec (F : ChromaMul) (offset upb : Int)
    (Y CB CR : Nat → Int) (maxw offx loopmaxw : Nat)
    (hoffx : offx ≤ 1) (hmw : maxw = offx + loopmaxw) (s : DState) :
    (rowPair420 F offset upb Y CB CR maxw offx loopmaxw s).ky
      = s.ky + 2 * maxw ∧
    (rowPair420 F offset upb Y CB CR maxw offx loopmaxw s).kc
      = s.kc + (loopmaxw / 2 + loopmaxw % 2) ∧
    (rowPair420 F offset upb Y CB CR maxw offx loopmaxw s).k
      = s.k + 2 * maxw ∧
    (rowPair420 F offset upb Y CB CR maxw offx loopmaxw s).kny
      = s.ky + 2 * maxw ∧
    (rowPair420 F offset upb Y CB CR maxw offx loopmaxw s).kn
      = s.k + 2 * maxw ∧
    ∀ j, (rowPair420 F offset upb Y CB CR maxw offx loopmaxw s).out j =
      if s.k ≤ j ∧ j < s.k + maxw then
        if j = s.k ∧ 0 < offx then sycc_to_rgb F offset upb (Y s.ky) 0 0
        else
          sycc_to_rgb F offset upb (Y (s.ky + (j - s.k)))
            (CB (s.kc + (j - s.k - offx) / 2))
            (CR (s.kc + (j - s.k - offx) / 2))
      else if s.k + maxw ≤ j ∧ j < s.k + 2 * maxw then
        if j = s.k + maxw ∧ 0 < offx then
          sycc_to_rgb F offset upb (Y (s.ky + maxw)) (CB s.kc) (CR s.kc)
        else
          sycc_to_rgb F offset upb (Y (s.ky + maxw + (j - (s.k + maxw))))
            (CB (s.kc + (j - (s.k + maxw) - offx) / 2))
            (CR (s.kc + (j - (s.k + maxw) - offx) / 2))
      else s.out j := by
  have hcase : offx = 0 ∨ offx = 1 := by omega
  unfold rowPair420
  rcases hcase with h0 | h1
  · subst h0
    rw [head420_zero]
    obtain ⟨pky, pkc, pk, pkny, pkn, pout⟩ :=
      pair420_spec F offset upb Y CB CR (loopmaxw / 2)
        ⟨s.ky, s.kc, s.k, s.ky + maxw, s.k + maxw, s.out⟩
        (by dsimp only; omega)
    dsimp only at pky pkc pk pkny pkn pout
    rcases Nat.mod_two_eq_zero_or_one loopmaxw with hp | hp
    · rw [tail420_even F offset upb Y CB CR loopmaxw hp]
      dsimp only
      rw [pky, pkc, pk, pkny, pkn]
      refine ⟨by omega, by omega, by omega, by omega, by omega, fun j => ?_⟩
      rw [pout j]
      by_cases hc : s.k ≤ j ∧ j < s.k + 2 * (loopmaxw / 2)
      · rw [if_pos hc, if_pos (show s.k ≤ j ∧ j < s.k + maxw by omega),
          if_neg (show ¬(j = s.k ∧ 0 < 0) by omega)]
        exact sycc_congr F offset upb Y CB CR _ _ _ _ rfl (by omega)
      · rw [if_neg hc]
        by_cases hn : s.k + maxw ≤ j ∧ j < s.k + maxw + 2 * (loopmaxw / 2)
        · rw [if_pos hn,
            if_neg (show ¬(s.k ≤ j ∧ j < s.k + maxw) by omega),
            if_pos (show s.k + maxw ≤ j ∧ j < s.k + 2 * maxw by omega),
            if_neg (show ¬(j = s.k + maxw ∧ 0 < 0) by omega)]
          exact sycc_congr F offset upb Y CB CR _ _ _ _ rfl (by omega)
        · rw [if_neg hn,
            if_neg (show ¬(s.k ≤ j ∧ j < s.k + maxw) by omega),
            if_neg (show ¬(s.k + maxw ≤ j ∧ j < s.k + 2 * maxw) by omega)]
    · rw [tail420_odd F offset upb Y CB CR loopmaxw hp]
      dsimp only
      rw [pky, pkc, pk, pkny, pkn]
      refine ⟨by omega, by omega, by omega, by omega, by omega, fun j => ?_⟩
      by_cases hj1 : j = s.k + maxw + 2 * (loopmaxw / 2)
      · rw [hj1, store_same,
          if_neg (show ¬(s.k ≤ s.k + maxw + 2 * (loopmaxw / 2)
            ∧ s.k + maxw + 2 * (loopmaxw / 2) < s.k + maxw) by omega),
          if_pos (show s.k + maxw ≤ s.k + maxw + 2 * (loopmaxw / 2)
            ∧ s.k + maxw + 2 * (loopmaxw / 2) < s.k + 2 * maxw by omega),
          if_neg (show ¬(s.k + maxw + 2 * (loopmaxw / 2) = s.k + maxw
            ∧ 0 < 0) by omega)]
        exact sycc_congr F offset upb Y CB CR _ _ _ _ (by omega) (by omega)
      · rw [store_ne _ _ _ _ hj1]
        by_cases hj2 : j = s.k + 2 * (loopmaxw / 2)
        · rw [hj2, store_same,
            if_pos (show s.k ≤ s.k + 2 * (loopmaxw / 2)
              ∧ s.k + 2 * (loopmaxw / 2) < s.k + maxw by omega),
            if_neg (show ¬(s.k + 2 * (loopmaxw / 2) = s.k ∧ 0 < 0) by
              omega)]
          exact sycc_congr F offset upb Y CB CR _ _ _ _ (by omega) (by omega)
        · rw [store_ne _ _ _ _ hj2, pout j]
          by_cases hc : s.k ≤ j ∧ j < s.k + 2 * (loopmaxw / 2)
          · rw [if_pos hc, if_pos (show s.k ≤ j ∧ j < s.k + maxw by omega),
              if_neg (show ¬(j = s.k ∧ 0 < 0) by omega)]
            exact sycc_congr F offset upb Y CB CR _ _ _ _ rfl (by omega)
          · rw [if_neg hc]
            by_cases hn : s.k + maxw ≤ j ∧ j < s.k + maxw + 2 * (loopmaxw / 2)
            · rw [if_pos hn,
                if_neg (show ¬(s.k ≤ j ∧ j < s.k + maxw) by omega),
                if_pos (show s.k + maxw ≤ j ∧ j < s.k + 2 * maxw by omega),
                if_neg (show ¬(j = s.k + maxw ∧ 0 < 0) by omega)]
              exact sycc_congr F offset upb Y CB CR _ _ _ _ rfl (by omega)
            · rw [if_neg hn,
                if_neg (show ¬(s.k ≤ j ∧ j < s.k + maxw) by omega),
                if_neg (show ¬(s.k + maxw ≤ j ∧ j < s.k + 2 * maxw) by
                  omega)]
  · subst h1
    rw [head420_pos F offset upb Y CB CR 1 (by omega)]
    obtain ⟨pky, pkc, pk, pkny, pkn, pout⟩ :=
      pair420_spec F offset upb Y CB CR (loopmaxw / 2)
        ⟨s.ky + 1, s.kc, s.k + 1, s.ky + maxw + 1, s.k + maxw + 1,
          store (store s.out s.k (sycc_to_rgb F offset upb (Y s.ky) 0 0))
            (s.k + maxw)
            (sycc_to_rgb F offset upb (Y (s.ky + maxw)) (CB s.kc)
              (CR s.kc))⟩
        (by dsimp only; omega)
    dsimp only at pky pkc pk pkny pkn pout
    rcases Nat.mod_two_eq_zero_or_one loopmaxw with hp | hp
    · rw [tail420_even F offset upb Y CB CR loopmaxw hp]
      dsimp only
      rw [pky, pkc, pk, pkny, pkn]
      refine ⟨by omega, by omega, by omega, by omega, by omega, fun j => ?_⟩
      rw [pout j]
      by_cases hc : s.k + 1 ≤ j ∧ j < s.k + 1 + 2 * (loopmaxw / 2)
      · rw [if_pos hc, if_pos (show s.k ≤ j ∧ j < s.k + maxw by omega),
          if_neg (show ¬(j = s.k ∧ 0 < 1) by omega)]
        exact sycc_congr F offset upb Y CB CR _ _ _ _ (by omega) (by omega)
      · rw [if_neg hc]
        by_cases hn : s.k + maxw + 1 ≤ j
            ∧ j < s.k + maxw + 1 + 2 * (loopmaxw / 2)
        · rw [if_pos hn,
            if_neg (show ¬(s.k ≤ j ∧ j < s.k + maxw) by omega),
            if_pos (show s.k + maxw ≤ j ∧ j < s.k + 2 * maxw by omega),
            if_neg (show ¬(j = s.k + maxw ∧ 0 < 1) by omega)]
          exact sycc_congr F offset upb Y CB CR _ _ _ _ (by omega) (by omega)
        · rw [if_neg hn]
          by_cases hw : j = s.k + maxw
          · rw [hw, store_same,
              if_neg (show ¬(s.k ≤ s.k + maxw ∧ s.k + maxw < s.k + maxw) by
                omega),
              if_pos (show s.k + maxw ≤ s.k + maxw
                ∧ s.k + maxw < s.k + 2 * maxw by omega),
              if_pos (show s.k + maxw = s.k + maxw ∧ 0 < 1 by omega)]
          · rw [store_ne _ _ _ _ hw]
            by_cases h0 : j = s.k
            · rw [h0, store_same,
                if_pos (show s.k ≤ s.k ∧ s.k < s.k + maxw by omega),
                if_pos (show s.k = s.k ∧ 0 < 1 by omega)]
            · rw [store_ne _ _ _ _ h0,
                if_neg (show ¬(s.k ≤ j ∧ j < s.k + maxw) by omega),
                if_neg (show ¬(s.k + maxw ≤ j ∧ j < s.k + 2 * maxw) by
                  omega)]
    · rw [tail420_odd F offset upb Y CB CR loopmaxw hp]
      dsimp only
      rw [pky, pkc, pk, pkny, pkn]
      refine ⟨by omega, by omega, by omega, by omega, by omega, fun j => ?_⟩
      by_cases hj1 : j = s.k + maxw + 1 + 2 * (loopmaxw / 2)
      · rw [hj1, store_same,
          if_neg (show ¬(s.k ≤ s.k + maxw + 1 + 2 * (loopmaxw / 2)
            ∧ s.k + maxw + 1 + 2 * (loopmaxw / 2) < s.k + maxw) by omega),
          if_pos (show s.k + maxw ≤ s.k + maxw + 1 + 2 * (loopmaxw / 2)
            ∧ s.k + maxw + 1 + 2 * (loopmaxw / 2) < s.k + 2 * maxw by
            omega),
          if_neg (show ¬(s.k + maxw + 1 + 2 * (loopmaxw / 2) = s.k + maxw
            ∧ 0 < 1) by omega)]
        exact sycc_congr F offset upb Y CB CR _ _ _ _ (by omega) (by omega)
      · rw [store_ne _ _ _ _ hj1]
        by_cases hj2 : j = s.k + 1 + 2 * (loopmaxw / 2)
        · rw [hj2, store_same,
            if_pos (show s.k ≤ s.k + 1 + 2 * (loopmaxw / 2)
              ∧ s.k + 1 + 2 * (loopmaxw / 2) < s.k + maxw by omega),
            if_neg (show ¬(s.k + 1 + 2 * (loopmaxw / 2) = s.k ∧ 0 < 1) by
              omega)]
          exact sycc_congr F offset upb Y CB CR _ _ _ _ (by omega) (by omega)
        · rw [store_ne _ _ _ _ hj2, pout j]
          by_cases hc : s.k + 1 ≤ j ∧ j < s.k + 1 + 2 * (loopmaxw / 2)
          · rw [if_pos hc, if_pos (show s.k ≤ j ∧ j < s.k + maxw by omega),
              if_neg (show ¬(j = s.k ∧ 0 < 1) by omega)]
            exact sycc_congr F offset upb Y CB CR _ _ _ _ (by omega)
              (by omega)
          · rw [if_neg hc]
            by_cases hn : s.k + maxw + 1 ≤ j
                ∧ j < s.k + maxw + 1 + 2 * (loopmaxw / 2)
            · rw [if_pos hn,
                if_neg (show ¬(s.k ≤ j ∧ j < s.k + maxw) by omega),
                if_pos (show s.k + maxw ≤ j ∧ j < s.k + 2 * maxw by omega),
                if_neg (show ¬(j = s.k + maxw ∧ 0 < 1) by omega)]
              exact sycc_congr F offset upb Y CB CR _ _ _ _ (by omega)
                (by omega)
            · rw [if_neg hn]
              by_cases hw : j = s.k + maxw
              · rw [hw, store_same,
                  if_neg (show ¬(s.k ≤ s.k + maxw ∧ s.k + maxw < s.k + maxw)
                    by omega),
                  if_pos (show s.k + maxw ≤ s.k + maxw
                    ∧ s.k + maxw < s.k + 2 * maxw by omega),
                  if_pos (show s.k + maxw = s.k + maxw ∧ 0 < 1 by omega)]
              · rw [store_ne _ _ _ _ hw]
                by_cases h0 : j = s.k
                · rw [h0, store_same,
                    if_pos (show s.k ≤ s.k ∧ s.k < s.k + maxw by omega),
                    if_pos (show s.k = s.k ∧ 0 < 1 by omega)]
                · rw [store_ne _ _ _ _ h0,
                    if_neg (show ¬(s.k ≤ j ∧ j < s.k + maxw) by omega),
                    if_neg (show ¬(s.k + maxw ≤ j ∧ j < s.k + 2 * maxw) by
                      omega)]

lemma rowsPair420_spec (F : ChromaMul) (offset upb : Int)
    (Y CB CR : Nat → Int) (maxw offx loopmaxw : Nat)
    (hoffx : offx ≤ 1) (hmw : maxw = offx + loopmaxw) (n : Nat) (s : DState) :
    (rowsPair420 F offset upb Y CB CR maxw offx loopmaxw n s).ky
      = s.ky + n * (2 * maxw) ∧
    (rowsPair420 F offset upb Y CB CR maxw offx loopmaxw n s).kc
      = s.kc + n * (loopmaxw / 2 + loopmaxw % 2) ∧
    (rowsPair420 F offset upb Y CB CR maxw offx loopmaxw n s).k
      = s.k + n * (2 * maxw) ∧
    (∀ p x, p < n → x < maxw →
      (rowsPair420 F offset upb Y CB CR maxw offx loopmaxw n s).out
        (s.k + p * (2 * maxw) + x) =
      if x = 0 ∧ 0 < offx then
        sycc_to_rgb F offset upb (Y (s.ky + p * (2 * maxw))) 0 0
      else
        sycc_to_rgb F offset upb (Y (s.ky + p * (2 * maxw) + x))
          (CB (s.kc + p * (loopmaxw / 2 + loopmaxw % 2) + (x - offx) / 2))
          (CR (s.kc + p * (loopmaxw / 2 + loopmaxw % 2)
            + (x - offx) / 2))) ∧
    (∀ p x, p < n → x < maxw →
      (rowsPair420 F offset upb Y CB CR maxw offx loopmaxw n s).out
        (s.k + p * (2 * maxw) + maxw + x) =
      if x = 0 ∧ 0 < offx then
        sycc_to_rgb F offset upb (Y (s.ky + p * (2 * maxw) + maxw))
          (CB (s.kc + p * (loopmaxw / 2 + loopmaxw % 2)))
          (CR (s.kc + p * (loopmaxw / 2 + loopmaxw % 2)))
      else
        sycc_to_rgb F offset upb (Y (s.ky + p * (2 * maxw) + maxw + x))
          (CB (s.kc + p * (loopmaxw / 2 + loopmaxw % 2) + (x - offx) / 2))
          (CR (s.kc + p * (loopmaxw / 2 + loopmaxw % 2)
            + (x - offx) / 2))) ∧
    (∀ j, j < s.k ∨ s.k + n * (2 * maxw) ≤ j →
      (rowsPair420 F offset upb Y CB CR maxw offx loopmaxw n s).out j
        = s.out j) := by
  induction n generalizing s with
  | zero =>
    refine ⟨by simp [rowsPair420], by simp [rowsPair420],
      by simp [rowsPair420], fun p x hp hx => by omega,
      fun p x hp hx => by omega, fun j hj => by simp [rowsPair420]⟩
  | succ n ih =>
    have hstep : rowsPair420 F offset upb Y CB CR maxw offx loopmaxw
        (n + 1) s
        = rowsPair420 F offset upb Y CB CR maxw offx loopmaxw n
            (rowPair420 F offset upb Y CB CR maxw offx loopmaxw s) := rfl
    rw [hstep]
    obtain ⟨rky, rkc, rk, rkny, rkn, rout⟩ :=
      rowPair420_spec F offset upb Y CB CR maxw offx loopmaxw hoffx hmw s
    obtain ⟨iky, ikc, ik, icur, inext, ipres⟩ :=
      ih (rowPair420 F offset upb Y CB CR maxw offx loopmaxw s)
    rw [rky] at iky
    rw [rkc] at ikc
    rw [rk] at ik
    rw [rk, rky, rkc] at icur
    rw [rk, rky, rkc] at inext
    rw [rk] at ipres
    refine ⟨by rw [iky, Nat.succ_mul n (2 * maxw)]; omega, by rw [ikc, Nat.succ_mul n (loopmaxw / 2 + loopmaxw % 2)]; omega,
      by rw [ik, Nat.succ_mul n (2 * maxw)]; omega, fun p x hp hx => ?_,
      fun p x hp hx => ?_, fun j hj => ?_⟩
    · match p with
      | 0 =>
        have hidx : s.k + 0 * (2 * maxw) + x = s.k + x := by omega
        rw [hidx, ipres (s.k + x) (by omega), rout (s.k + x)]
        rw [if_pos (show s.k ≤ s.k + x ∧ s.k + x < s.k + maxw by omega)]
        by_cases hx0 : x = 0 ∧ 0 < offx
        · rw [if_pos (show s.k + x = s.k ∧ 0 < offx by omega), if_pos hx0]
          exact sycc_congrY F offset upb Y 0 0 _ _ (by omega)
        · rw [if_neg (show ¬(s.k + x = s.k ∧ 0 < offx) by omega),
            if_neg hx0]
          exact sycc_congr F offset upb Y CB CR _ _ _ _ (by omega) (by omega)
      | p' + 1 =>
        have hidx : s.k + (p' + 1) * (2 * maxw) + x
            = s.k + 2 * maxw + p' * (2 * maxw) + x := by
          rw [Nat.succ_mul p' (2 * maxw)]; omega
        rw [hidx, icur p' x (by omega) hx]
        by_cases hx0 : x = 0 ∧ 0 < offx
        · rw [if_pos hx0, if_pos hx0]
          refine sycc_congrY F offset upb Y 0 0 _ _ ?_
          rw [Nat.succ_mul p' (2 * maxw)]
          omega
        · rw [if_neg hx0, if_neg hx0]
          refine sycc_congr F offset upb Y CB CR _ _ _ _ ?_ ?_
          · rw [Nat.succ_mul p' (2 * maxw)]; omega
          · rw [Nat.succ_mul p' (loopmaxw / 2 + loopmaxw % 2)]; omega
    · match p with
      | 0 =>
        have hidx : s.k + 0 * (2 * maxw) + maxw + x = s.k + maxw + x := by
          omega
        rw [hidx, ipres (s.k + maxw + x) (by omega), rout (s.k + maxw + x)]
        rw [if_neg (show ¬(s.k ≤ s.k + maxw + x
            ∧ s.k + maxw + x < s.k + maxw) by omega),
          if_pos (show s.k + maxw ≤ s.k + maxw + x
            ∧ s.k + maxw + x < s.k + 2 * maxw by omega)]
        by_cases hx0 : x = 0 ∧ 0 < offx
        · rw [if_pos (show s.k + maxw + x = s.k + maxw ∧ 0 < offx by omega),
            if_pos hx0]
          exact sycc_congr F offset upb Y CB CR _ _ _ _ (by omega) (by omega)
        · rw [if_neg (show ¬(s.k + maxw + x = s.k + maxw ∧ 0 < offx) by
              omega),
            if_neg hx0]
          exact sycc_congr F offset upb Y CB CR _ _ _ _ (by omega) (by omega)
      | p' + 1 =>
        have hidx : s.k + (p' + 1) * (2 * maxw) + maxw + x
            = s.k + 2 * maxw + p' * (2 * maxw) + maxw + x := by
          rw [Nat.succ_mul p' (2 * maxw)]; omega
        rw [hidx, inext p' x (by omega) hx]
        by_cases hx0 : x = 0 ∧ 0 < offx
        · rw [if_pos hx0, if_pos hx0]
          refine sycc_congr F offset upb Y CB CR _ _ _ _ ?_ ?_
          · rw [Nat.succ_mul p' (2 * maxw)]; omega
          · rw [Nat.succ_mul p' (loopmaxw / 2 + loopmaxw % 2)]; omega
        · rw [if_neg hx0, if_neg hx0]
          refine sycc_congr F offset upb Y CB CR _ _ _ _ ?_ ?_
          · rw [Nat.succ_mul p' (2 * maxw)]; omega
          · rw [Nat.succ_mul p' (loopmaxw / 2 + loopmaxw % 2)]; omega
    · have hj2 : j < s.k + 2 * maxw ∨ s.k + 2 * maxw + n * (2 * maxw) ≤ j := by
        rcases hj with hl | hr
        · exact Or.inl (by omega)
        · refine Or.inr ?_
          rw [Nat.succ_mul n (2 * maxw)] at hr
          omega
      rw [ipres j hj2, rout j]
      rcases hj with hl | hr
      · rw [if_neg (show ¬(s.k ≤ j ∧ j < s.k + maxw) by omega),
          if_neg (show ¬(s.k + maxw ≤ j ∧ j < s.k + 2 * maxw) by omega)]
      · rw [Nat.succ_mul n (2 * maxw)] at hr
        rw [if_neg (show ¬(s.k ≤ j ∧ j < s.k + maxw) by omega),
          if_neg (show ¬(s.k + maxw ≤ j ∧ j < s.k + 2 * maxw) by omega)]

lemma run420_spec (F : ChromaMul) (offset upb : Int) (Y CB CR : Nat → Int)
    (maxw offx loopmaxw offy loopmaxh : Nat)
    (hoffx : offx ≤ 1) (hmw : maxw = offx + loopmaxw) (hoffy : offy ≤ 1) :
    (0 < offy → ∀ x, x < maxw →
      (run420 F offset upb Y CB CR maxw offx loopmaxw offy loopmaxh).out x
        = sycc_to_rgb F offset upb (Y x) 0 0) ∧
    (∀ p x, p < loopmaxh / 2 → x < maxw →
      (run420 F offset upb Y CB CR maxw offx loopmaxw offy loopmaxh).out
        (offy * maxw + p * (2 * maxw) + x) =
      if x = 0 ∧ 0 < offx then
        sycc_to_rgb F offset upb (Y (offy * maxw + p * (2 * maxw))) 0 0
      else
        sycc_to_rgb F offset upb (Y (offy * maxw + p * (2 * maxw) + x))
          (CB (p * (loopmaxw / 2 + loopmaxw % 2) + (x - offx) / 2))
          (CR (p * (loopmaxw / 2 + loopmaxw % 2) + (x - offx) / 2))) ∧
    (∀ p x, p < loopmaxh / 2 → x < maxw →
      (run420 F offset upb Y CB CR maxw offx loopmaxw offy loopmaxh).out
        (offy * maxw + p * (2 * maxw) + maxw + x) =
      if x = 0 ∧ 0 < offx then
        sycc_to_rgb F offset upb
          (Y (offy * maxw + p * (2 * maxw) + maxw))
          (CB (p * (loopmaxw / 2 + loopmaxw % 2)))
          (CR (p * (loopmaxw / 2 + loopmaxw % 2)))
      else
        sycc_to_rgb F offset upb
          (Y (offy * maxw + p * (2 * maxw) + maxw + x))
          (CB (p * (loopmaxw / 2 + loopmaxw % 2) + (x - offx) / 2))
          (CR (p * (loopmaxw / 2 + loopmaxw % 2) + (x - offx) / 2))) ∧
    (loopmaxh % 2 = 1 → ∀ x, x < maxw →
      (run420 F offset upb Y CB CR maxw offx loopmaxw offy loopmaxh).out
        (offy * maxw + loopmaxh / 2 * (2 * maxw) + x) =
      sycc_to_rgb F offset upb
        (Y (offy * maxw + loopmaxh / 2 * (2 * maxw) + x))
        (CB (loopmaxh / 2 * (loopmaxw / 2 + loopmaxw % 2) + x / 2))
        (CR (loopmaxh / 2 * (loopmaxw / 2 + loopmaxw % 2) + x / 2))) := by
  have hcase : offy = 0 ∨ offy = 1 := by omega
  unfold run420
  rcases hcase with h0 | h1
  · subst h0
    simp only [if_neg (show ¬(0:Nat) < 0 by omega)]
    obtain ⟨qky, qkc, qk, qcur, qnext, qpres⟩ :=
      rowsPair420_spec F offset upb Y CB CR maxw offx loopmaxw hoffx hmw
        (loopmaxh / 2) ⟨0, 0, 0, 0, 0, fun _ => (0, 0, 0)⟩
    dsimp only at qky qkc qk qcur qnext qpres
    rcases Nat.mod_two_eq_zero_or_one loopmaxh with hph | hph
    · simp only [if_neg (show ¬loopmaxh % 2 = 1 by omega)]
      refine ⟨fun hy => absurd hy (by omega), fun p x hp hx => ?_,
        fun p x hp hx => ?_, fun hodd => absurd hodd (by omega)⟩
      · have hidx : 0 * maxw + p * (2 * maxw) + x
            = 0 + p * (2 * maxw) + x := by omega
        rw [hidx, qcur p x hp hx]
        by_cases hx0 : x = 0 ∧ 0 < offx
        · rw [if_pos hx0, if_pos hx0]
          exact sycc_congrY F offset upb Y 0 0 _ _ (by omega)
        · rw [if_neg hx0, if_neg hx0]
          exact sycc_congr F offset upb Y CB CR _ _ _ _ (by omega) (by omega)
      · have hidx : 0 * maxw + p * (2 * maxw) + maxw + x
            = 0 + p * (2 * maxw) + maxw + x := by omega
        rw [hidx, qnext p x hp hx]
        by_cases hx0 : x = 0 ∧ 0 < offx
        · rw [if_pos hx0, if_pos hx0]
          exact sycc_congr F offset upb Y CB CR _ _ _ _ (by omega) (by omega)
        · rw [if_neg hx0, if_neg hx0]
          exact sycc_congr F offset upb Y CB CR _ _ _ _ (by omega) (by omega)
    · simp only [if_pos hph]
      obtain ⟨lky, lkc, lk, lout⟩ :=
        lastRow420_spec F offset upb Y CB CR maxw
          (rowsPair420 F offset upb Y CB CR maxw offx loopmaxw
            (loopmaxh / 2) ⟨0, 0, 0, 0, 0, fun _ => (0, 0, 0)⟩)
      rw [qk, qky, qkc] at lout
      refine ⟨fun hy => absurd hy (by omega), fun p x hp hx => ?_,
        fun p x hp hx => ?_, fun _ x hx => ?_⟩
      · have hmul : (p + 1) * (2 * maxw) ≤ loopmaxh / 2 * (2 * maxw) :=
          Nat.mul_le_mul_right _ (by omega)
        rw [Nat.succ_mul p (2 * maxw)] at hmul
        have hidx : 0 * maxw + p * (2 * maxw) + x
            = 0 + p * (2 * maxw) + x := by omega
        rw [hidx, lout _, if_neg (by omega), qcur p x hp hx]
        by_cases hx0 : x = 0 ∧ 0 < offx
        · rw [if_pos hx0, if_pos hx0]
          exact sycc_congrY F offset upb Y 0 0 _ _ (by omega)
        · rw [if_neg hx0, if_neg hx0]
          exact sycc_congr F offset upb Y CB CR _ _ _ _ (by omega) (by omega)
      · have hmul : (p + 1) * (2 * maxw) ≤ loopmaxh / 2 * (2 * maxw) :=
          Nat.mul_le_mul_right _ (by omega)
        rw [Nat.succ_mul p (2 * maxw)] at hmul
        have hidx : 0 * maxw + p * (2 * maxw) + maxw + x
            = 0 + p * (2 * maxw) + maxw + x := by omega
        rw [hidx, lout _, if_neg (by omega), qnext p x hp hx]
        by_cases hx0 : x = 0 ∧ 0 < offx
        · rw [if_pos hx0, if_pos hx0]
          exact sycc_congr F offset upb Y CB CR _ _ _ _ (by omega) (by omega)
        · rw [if_neg hx0, if_neg hx0]
          exact sycc_congr F offset upb Y CB CR _ _ _ _ (by omega) (by omega)
      · have hidx : 0 * maxw + loopmaxh / 2 * (2 * maxw) + x
            = 0 + loopmaxh / 2 * (2 * maxw) + x := by omega
        rw [hidx, lout _, if_pos (by omega)]
        exact sycc_congr F offset upb Y CB CR _ _ _ _ (by omega) (by omega)
  · subst h1
    simp only [if_pos (show (0:Nat) < 1 by omega)]
    obtain ⟨nky, nkc, nk, nkny, nkn, nout⟩ :=
      neutralRow420_spec F offset upb Y maxw
        ⟨0, 0, 0, 0, 0, fun _ => (0, 0, 0)⟩
    dsimp only at nky nkc nk nkny nkn nout
    obtain ⟨qky, qkc, qk, qcur, qnext, qpres⟩ :=
      rowsPair420_spec F offset upb Y CB CR maxw offx loopmaxw hoffx hmw
        (loopmaxh / 2)
        (neutralRow420 F offset upb Y maxw ⟨0, 0, 0, 0, 0, fun _ => (0, 0, 0)⟩)
    rw [nky] at qky
    rw [nkc] at qkc
    rw [nk] at qk
    rw [nk, nky, nkc] at qcur
    rw [nk, nky, nkc] at qnext
    rw [nk] at qpres
    rcases Nat.mod_two_eq_zero_or_one loopmaxh with hph | hph
    · simp only [if_neg (show ¬loopmaxh % 2 = 1 by omega)]
      refine ⟨fun _ x hx => ?_, fun p x hp hx => ?_, fun p x hp hx => ?_,
        fun hodd => absurd hodd (by omega)⟩
      · rw [qpres x (by omega), nout x, if_pos (by omega)]
        exact sycc_congrY F offset upb Y 0 0 _ _ (by omega)
      · have hidx : 1 * maxw + p * (2 * maxw) + x
            = 0 + maxw + p * (2 * maxw) + x := by omega
        rw [hidx, qcur p x hp hx]
        by_cases hx0 : x = 0 ∧ 0 < offx
        · rw [if_pos hx0, if_pos hx0]
          exact sycc_congrY F offset upb Y 0 0 _ _ (by omega)
        · rw [if_neg hx0, if_neg hx0]
          exact sycc_congr F offset upb Y CB CR _ _ _ _ (by omega) (by omega)
      · have hidx : 1 * maxw + p * (2 * maxw) + maxw + x
            = 0 + maxw + p * (2 * maxw) + maxw + x := by omega
        rw [hidx, qnext p x hp hx]
        by_cases hx0 : x = 0 ∧ 0 < offx
        · rw [if_pos hx0, if_pos hx0]
          exact sycc_congr F offset upb Y CB CR _ _ _ _ (by omega) (by omega)
        · rw [if_neg hx0, if_neg hx0]
          exact sycc_congr F offset upb Y CB CR _ _ _ _ (by omega) (by omega)
    · simp only [if_pos hph]
      obtain ⟨lky, lkc, lk, lout⟩ :=
        lastRow420_spec F offset upb Y CB CR maxw
          (rowsPair420 F offset upb Y CB CR maxw offx loopmaxw
            (loopmaxh / 2)
            (neutralRow420 F offset upb Y maxw
              ⟨0, 0, 0, 0, 0, fun _ => (0, 0, 0)⟩))
      rw [qk, qky, qkc] at lout
      refine ⟨fun _ x hx => ?_, fun p x hp hx => ?_, fun p x hp hx => ?_,
        fun _ x hx => ?_⟩
      · rw [lout x, if_neg (by omega), qpres x (by omega), nout x,
          if_pos (by omega)]
        exact sycc_congrY F offset upb Y 0 0 _ _ (by omega)
      · have hmul : (p + 1) * (2 * maxw) ≤ loopmaxh / 2 * (2 * maxw) :=
          Nat.mul_le_mul_right _ (by omega)
        rw [Nat.succ_mul p (2 * maxw)] at hmul
        have hidx : 1 * maxw + p * (2 * maxw) + x
            = 0 + maxw + p * (2 * maxw) + x := by omega
        rw [hidx, lout _, if_neg (by omega), qcur p x hp hx]
        by_cases hx0 : x = 0 ∧ 0 < offx
        · rw [if_pos hx0, if_pos hx0]
          exact sycc_congrY F offset upb Y 0 0 _ _ (by omega)
        · rw [if_neg hx0, if_neg hx0]
          exact sycc_congr F offset upb Y CB CR _ _ _ _ (by omega) (by omega)
      · have hmul : (p + 1) * (2 * maxw) ≤ loopmaxh / 2 * (2 * maxw) :=
          Nat.mul_le_mul_right _ (by omega)
        rw [Nat.succ_mul p (2 * maxw)] at hmul
        have hidx : 1 * maxw + p * (2 * maxw) + maxw + x
            = 0 + maxw + p * (2 * maxw) + maxw + x := by omega
        rw [hidx, lout _, if_neg (by omega), qnext p x hp hx]
        by_cases hx0 : x = 0 ∧ 0 < offx
        · rw [if_pos hx0, if_pos hx0]
          exact sycc_congr F offset upb Y CB CR _ _ _ _ (by omega) (by omega)
        · rw [if_neg hx0, if_neg hx0]
          exact sycc_congr F offset upb Y CB CR _ _ _ _ (by omega) (by omega)
      · have hidx : 1 * maxw + loopmaxh / 2 * (2 * maxw) + x
            = 0 + maxw + loopmaxh / 2 * (2 * maxw) + x := by omega
        rw [hidx, lout _, if_pos (by omega)]
        exact sycc_congr F offset upb Y CB CR _ _ _ _ (by omega) (by omega)

/-! ## Characterization of the upsampling fill -/

lemma getD_take_append (A B : List Int) (j : Nat) (hj : j < A.length) :
    (A ++ B).getD j 0 = A.getD j 0 := by
  rw [List.getD_eq_getElem?_getD, List.getD_eq_getElem?_getD,
    List.getElem?_append, if_pos hj]

lemma getD_drop_append (A B : List Int) (j : Nat) (hj : A.length ≤ j) :
    (A ++ B).getD j 0 = B.getD (j - A.length) 0 := by
  rw [List.getD_eq_getElem?_getD, List.getD_eq_getElem?_getD,
    List.getElem?_append, if_neg (by omega)]

lemma getD_replicate (n j : Nat) (v : Int) (hj : j < n) :
    (List.replicate n v).getD j 0 = v := by
  rw [List.getD_eq_getElem?_getD, List.getElem?_replicate_of_lt hj]
  rfl

lemma writeAt_eq (dst : List Int) (d : Nat) (row dst2 : List Int)
    (h : writeAt dst d row = some dst2) :
    d + row.length ≤ dst.length ∧
      dst2 = dst.take d ++ row ++ dst.drop (d + row.length) := by
  unfold writeAt at h
  split at h
  · exact ⟨by assumption, (Option.some.inj h).symm⟩
  · cases h

lemma writeAt_some (dst : List Int) (d : Nat) (row : List Int)
    (h : d + row.length ≤ dst.length) :
    writeAt dst d row
      = some (dst.take d ++ row ++ dst.drop (d + row.length)) := by
  unfold writeAt
  rw [if_pos h]

lemma length_splice (dst row : List Int) (d : Nat)
    (h : d + row.length ≤ dst.length) :
    (dst.take d ++ row ++ dst.drop (d + row.length)).length = dst.length := by
  simp only [List.length_append, List.length_take, List.length_drop]
  omega

lemma getD_splice (dst row : List Int) (d j : Nat)
    (h : d + row.length ≤ dst.length) :
    (dst.take d ++ row ++ dst.drop (d + row.length)).getD j 0 =
      if d ≤ j ∧ j < d + row.length then row.getD (j - d) 0
      else dst.getD j 0 := by
  have hlt : (dst.take d).length = d := by
    rw [List.length_take]; omega
  by_cases h1 : j < d
  · rw [if_neg (by omega)]
    rw [List.getD_eq_getElem?_getD, List.getD_eq_getElem?_getD,
      List.getElem?_append,
      if_pos (show j < (dst.take d ++ row).length by
        rw [List.length_append, hlt]; omega),
      List.getElem?_append, if_pos (show j < (dst.take d).length by omega),
      List.getElem?_take, if_pos h1]
  · by_cases h2 : j < d + row.length
    · rw [if_pos (by omega)]
      rw [List.getD_eq_getElem?_getD, List.getD_eq_getElem?_getD,
        List.getElem?_append,
        if_pos (show j < (dst.take d ++ row).length by
          rw [List.length_append, hlt]; omega),
        List.getElem?_append,
        if_neg (show ¬j < (dst.take d).length by omega), hlt]
    · rw [if_neg (by omega)]
      rw [List.getD_eq_getElem?_getD, List.getD_eq_getElem?_getD,
        List.getElem?_append,
        if_neg (show ¬j < (dst.take d ++ row).length by
          rw [List.length_append, hlt]; omega),
        List.getElem?_drop, List.length_append, hlt]
      congr 2
      omega

lemma zeroRows_spec (w : Nat) : ∀ (n d : Nat) (dst : List Int),
    d + n * w ≤ dst.length →
    ∃ dst2, zeroRows w n d dst = some (d + n * w, dst2) ∧
      dst2.length = dst.length ∧
      ∀ j, dst2.getD j 0 =
        if d ≤ j ∧ j < d + n * w then 0 else dst.getD j 0 := by
  intro n
  induction n with
  | zero =>
    intro d dst hlen
    refine ⟨dst, by simp [zeroRows], rfl, fun j => ?_⟩
    rw [if_neg (by omega)]
  | succ n ih =>
    intro d dst hlen
    have hsm : (n + 1) * w = n * w + w := Nat.succ_mul n w
    have hw : d + w ≤ dst.length := by omega
    have hw2 : d + (List.replicate w (0:Int)).length ≤ dst.length := by
      rw [List.length_replicate]; omega
    obtain ⟨dst2, hrec, hlen2, hchar⟩ :=
      ih (d + w) (dst.take d ++ List.replicate w (0:Int)
        ++ dst.drop (d + (List.replicate w (0:Int)).length))
        (by rw [length_splice _ _ _ hw2]
            omega)
    refine ⟨dst2, ?_, ?_, fun j => ?_⟩
    · have hstep : zeroRows w (n + 1) d dst
          = (writeAt dst d (List.replicate w 0)).bind
              (fun dst2 => zeroRows w n (d + w) dst2) := rfl
      rw [hstep, writeAt_some dst d _ hw2, Option.some_bind, hrec]
      have : d + w + n * w = d + (n + 1) * w := by omega
      rw [this]
    · rw [hlen2, length_splice _ _ _ hw2]
    · rw [hchar j, getD_splice _ _ _ _ hw2, List.length_replicate]
      by_cases h1 : d + w ≤ j ∧ j < d + w + n * w
      · rw [if_pos h1, if_pos (by omega)]
      · rw [if_neg h1]
        by_cases h2 : d ≤ j ∧ j < d + w
        · rw [if_pos h2, if_pos (by omega), getD_replicate _ _ _ (by omega)]
        · rw [if_neg h2, if_neg (by omega)]

lemma repBlocks_spec (src : List Int) (dx : Nat) : ∀ (n sIdx : Nat),
    (∀ k, k < n → sIdx + k < src.length) →
    ∃ L, repBlocks src dx sIdx n = some L ∧ L.length = dx * n ∧
      ∀ x, x < dx * n → L.getD x 0 = src.getD (sIdx + x / dx) 0 := by
  intro n
  induction n with
  | zero =>
    intro sIdx hread
    exact ⟨[], rfl, by simp, fun x hx => by omega⟩
  | succ n ih =>
    intro sIdx hread
    have hs : sIdx < src.length := hread 0 (by omega)
    obtain ⟨L, hrec, hlen, hchar⟩ := ih (sIdx + 1)
      (fun k hk => by
        have := hread (k + 1) (by omega)
        omega)
    have hget : src[sIdx]? = some (src.getD sIdx 0) := by
      rw [List.getD_eq_getElem?_getD, List.getElem?_eq_getElem hs]
      rfl
    refine ⟨List.replicate dx (src.getD sIdx 0) ++ L, ?_, ?_, fun x hx => ?_⟩
    · have hstep : repBlocks src dx sIdx (n + 1)
          = (src[sIdx]?).bind (fun v =>
              (repBlocks src dx (sIdx + 1) n).bind (fun rest =>
                some (List.replicate dx v ++ rest))) := rfl
      rw [hstep, hget, Option.some_bind, hrec, Option.some_bind]
    · have hms : dx * (n + 1) = dx * n + dx := Nat.mul_succ dx n
      rw [List.length_append, List.length_replicate, hlen]
      omega
    · have hms : dx * (n + 1) = dx * n + dx := Nat.mul_succ dx n
      have hdx : 0 < dx := by
        rcases Nat.eq_zero_or_pos dx with h | h
        · subst h; simp at hx
        · exact h
      by_cases h1 : x < dx
      · rw [getD_take_append _ _ _ (by rw [List.length_replicate]; omega),
          getD_replicate _ _ _ h1, Nat.div_eq_of_lt h1, Nat.add_zero]
      · rw [getD_drop_append _ _ _ (by rw [List.length_replicate]; omega),
          List.length_replicate, hchar (x - dx) (by omega)]
        congr 1
        have hx2 : x = x - dx + dx := by omega
        conv_rhs => rw [hx2]
        rw [Nat.add_div_right _ hdx]
        omega

lemma buildRow_spec (src : List Int) (sIdx xoff dx w : Nat) (hdx : 1 ≤ dx)
    (hxw : xoff ≤ w)
    (hread : ∀ k, xoff + dx * k < w → sIdx + k < src.length) :
    ∃ row, buildRow src sIdx xoff dx w = some row ∧ row.length = w ∧
      ∀ x, x < w → row.getD x 0 =
        if x < xoff then 0
        else src.getD (sIdx + (x - xoff) / dx) 0 := by
  have hdm := Nat.div_add_mod (w - xoff) dx
  have hml : (w - xoff) % dx < dx := Nat.mod_lt _ (by omega)
  obtain ⟨L, hrep, hlen, hchar⟩ := repBlocks_spec src dx ((w - xoff) / dx)
    sIdx
    (fun k hk => by
      refine hread k ?_
      have h1 : dx * (k + 1) ≤ dx * ((w - xoff) / dx) :=
        Nat.mul_le_mul_left dx (by omega)
      have h2 : dx * (k + 1) = dx * k + dx := Nat.mul_succ dx k
      omega)
  simp only [buildRow]
  rw [hrep]
  simp only [Option.bind_eq_bind, Option.some_bind]
  by_cases htail : xoff + dx * ((w - xoff) / dx) < w
  · have hreadn : sIdx + (w - xoff) / dx < src.length := hread _ htail
    have hgetn : src[sIdx + (w - xoff) / dx]?
        = some (src.getD (sIdx + (w - xoff) / dx) 0) := by
      rw [List.getD_eq_getElem?_getD, List.getElem?_eq_getElem hreadn]
      rfl
    rw [if_pos htail, hgetn]
    simp only [Option.bind_eq_bind, Option.some_bind]
    refine ⟨_, rfl, ?_, fun x hx => ?_⟩
    · simp only [List.length_append, List.length_replicate, hlen]
      omega
    · by_cases h1 : x < xoff
      · rw [if_pos h1,
          getD_take_append _ _ _
            (by simp only [List.length_append, List.length_replicate, hlen]
                omega),
          getD_take_append _ _ _ (by rw [List.length_replicate]; omega),
          getD_replicate _ _ _ h1]
      · rw [if_neg h1]
        by_cases h2 : x < xoff + dx * ((w - xoff) / dx)
        · rw [getD_take_append _ _ _
            (by simp only [List.length_append, List.length_replicate, hlen]
                omega),
            getD_drop_append _ _ _ (by rw [List.length_replicate]; omega),
            List.length_replicate, hchar (x - xoff) (by omega)]
        · rw [getD_drop_append _ _ _
            (by simp only [List.length_append, List.length_replicate, hlen]
                omega)]
          simp only [List.length_append, List.length_replicate, hlen]
          rw [getD_replicate _ _ _ (by omega)]
          congr 1
          have h5 : x - xoff
              = dx * ((w - xoff) / dx)
                + (x - xoff - dx * ((w - xoff) / dx)) := by
            omega
          have h6 := Nat.mul_add_div (show 0 < dx by omega)
            ((w - xoff) / dx) (x - xoff - dx * ((w - xoff) / dx))
          rw [← h5] at h6
          rw [h6, Nat.div_eq_of_lt (show
            x - xoff - dx * ((w - xoff) / dx) < dx by omega)]
          omega
  · rw [if_neg htail]
    have hle : dx * ((w - xoff) / dx) ≤ w - xoff := by omega
    refine ⟨_, rfl, ?_, fun x hx => ?_⟩
    · simp only [List.length_append, List.length_replicate, hlen,
        List.length_nil]
      omega
    · by_cases h1 : x < xoff
      · rw [if_pos h1,
          getD_take_append _ _ _
            (by simp only [List.length_append, List.length_replicate, hlen,
              List.length_nil]
                omega),
          getD_take_append _ _ _ (by rw [List.length_replicate]; omega),
          getD_replicate _ _ _ h1]
      · rw [if_neg h1,
          getD_take_append _ _ _
            (by simp only [List.length_append, List.length_replicate, hlen,
              List.length_nil]
                omega),
          getD_drop_append _ _ _ (by rw [List.length_replicate]; omega),
          List.length_replicate, hchar (x - xoff) (by omega)]

lemma copyRows_spec (w : Nat) : ∀ (m d : Nat) (dst : List Int),
    w ≤ d → d + m * w ≤ dst.length →
    ∃ dst2, copyRows w m d dst = some (d + m * w, dst2) ∧
      dst2.length = dst.length ∧
      ∀ j, dst2.getD j 0 =
        if d ≤ j ∧ j < d + m * w then dst.getD (d - w + (j - d) % w) 0
        else dst.getD j 0 := by
  intro m
  induction m with
  | zero =>
    intro d dst hwd hlen
    refine ⟨dst, by simp [copyRows], rfl, fun j => ?_⟩
    rw [if_neg (by omega)]
  | succ m ih =>
    intro d dst hwd hlen
    have hsm : (m + 1) * w = m * w + w := Nat.succ_mul m w
    have hrowlen : ((dst.drop (d - w)).take w).length = w := by
      rw [List.length_take, List.length_drop]
      omega
    have hw2 : d + ((dst.drop (d - w)).take w).length ≤ dst.length := by
      rw [hrowlen]; omega
    have hrowval : ∀ i, i < w →
        ((dst.drop (d - w)).take w).getD i 0 = dst.getD (d - w + i) 0 := by
      intro i hi
      rw [List.getD_eq_getElem?_getD, List.getD_eq_getElem?_getD,
        List.getElem?_take, if_pos hi, List.getElem?_drop]
    obtain ⟨dst2, hrec, hlen2, hchar⟩ :=
      ih (d + w)
        (dst.take d ++ (dst.drop (d - w)).take w
          ++ dst.drop (d + ((dst.drop (d - w)).take w).length))
        (by omega)
        (by rw [length_splice _ _ _ hw2]; omega)
    refine ⟨dst2, ?_, ?_, fun j => ?_⟩
    · have hstep : copyRows w (m + 1) d dst
          = if w ≤ d then
              (writeAt dst d ((dst.drop (d - w)).take w)).bind
                (fun dst2 => copyRows w m (d + w) dst2)
            else none := rfl
      rw [hstep, if_pos hwd, writeAt_some _ _ _ hw2, Option.some_bind, hrec]
      have : d + w + m * w = d + (m + 1) * w := by omega
      rw [this]
    · rw [hlen2, length_splice _ _ _ hw2]
    · rw [hchar j]
      by_cases h1 : d + w ≤ j ∧ j < d + w + m * w
      · have hw0 : 0 < w := by
          rcases Nat.eq_zero_or_pos w with hz | hz
          · subst hz
            simp at h1
            omega
          · exact hz
        have hmod := Nat.mod_lt (j - (d + w)) hw0
        rw [if_pos h1,
          show d + w - w + (j - (d + w)) % w = d + (j - (d + w)) % w from by
            omega,
          getD_splice _ _ _ _ hw2, hrowlen,
          if_pos (show d ≤ d + (j - (d + w)) % w
              ∧ d + (j - (d + w)) % w < d + w by omega),
          show d + (j - (d + w)) % w - d = (j - (d + w)) % w from by omega,
          hrowval _ (by omega),
          if_pos (show d ≤ j ∧ j < d + (m + 1) * w by omega)]
        congr 2
        have e2 : j - d = j - d - w + w := by omega
        conv_rhs => rw [e2]
        rw [Nat.add_mod_right]
        congr 1
        omega
      · rw [if_neg h1, getD_splice _ _ _ _ hw2, hrowlen]
        by_cases h2 : d ≤ j ∧ j < d + w
        · rw [if_pos h2, hrowval (j - d) (by omega),
            if_pos (show d ≤ j ∧ j < d + (m + 1) * w by omega)]
          congr 2
          rw [Nat.mod_eq_of_lt (by omega)]
        · rw [if_neg h2,
            if_neg (show ¬(d ≤ j ∧ j < d + (m + 1) * w) by omega)]

lemma fillGroups_spec (src : List Int) (worg xoff dx w dy : Nat)
    (hdx : 1 ≤ dx) (hdy : 1 ≤ dy) (hxw : xoff ≤ w) : ∀ (n sIdx d : Nat)
    (dst : List Int),
    d + n * (dy * w) ≤ dst.length →
    (∀ g k, g < n → xoff + dx * k < w → sIdx + g * worg + k < src.length) →
    ∃ dst2, fillGroups src worg xoff dx w dy n sIdx d dst
        = some (d + n * (dy * w), dst2) ∧
      dst2.length = dst.length ∧
      (∀ g r x, g < n → r < dy → x < w →
        dst2.getD (d + g * (dy * w) + r * w + x) 0 =
          if x < xoff then 0
          else src.getD (sIdx + g * worg + (x - xoff) / dx) 0) ∧
      (∀ j, j < d ∨ d + n * (dy * w) ≤ j →
        dst2.getD j 0 = dst.getD j 0) := by
  intro n
  induction n with
  | zero =>
    intro sIdx d dst hlen hread
    refine ⟨dst, by simp [fillGroups], rfl, fun g r x hg hr hx => by omega,
      fun j hj => rfl⟩
  | succ n ih =>
    intro sIdx d dst hlen hread
    have hsm : (n + 1) * (dy * w) = n * (dy * w) + dy * w :=
      Nat.succ_mul n (dy * w)
    have hsw : dy * w = (dy - 1) * w + w := by
      have h : (dy - 1 + 1) * w = (dy - 1) * w + w := Nat.succ_mul (dy - 1) w
      rw [show dy - 1 + 1 = dy from by omega] at h
      omega
    obtain ⟨row, hbrow, hrowlen, hrowval⟩ := buildRow_spec src sIdx xoff dx w
      hdx hxw
      (fun k hk => by
        have := hread 0 k (by omega) hk
        omega)
    have hw1 : d + row.length ≤ dst.length := by rw [hrowlen]; omega
    obtain ⟨dstc, hcopy, hclen, hcchar⟩ := copyRows_spec w (dy - 1) (d + w)
      (dst.take d ++ row ++ dst.drop (d + row.length))
      (by omega)
      (by rw [length_splice _ _ _ hw1]; omega)
    obtain ⟨dst2, hrec, hlen2, hchar2, hpres2⟩ := ih (sIdx + worg)
      (d + dy * w) dstc
      (by rw [hclen, length_splice _ _ _ hw1]; omega)
      (fun g k hg hk => by
        have := hread (g + 1) k (by omega) hk
        have hgm : (g + 1) * worg = g * worg + worg := Nat.succ_mul g worg
        omega)
    refine ⟨dst2, ?_, ?_, fun g r x hg hr hx => ?_, fun j hj => ?_⟩
    · simp only [fillGroups]
      rw [hbrow]
      simp only [Option.bind_eq_bind, Option.some_bind]
      rw [writeAt_some _ _ _ hw1]
      simp only [Option.some_bind]
      rw [hcopy]
      simp only [Option.some_bind]
      have e1 : d + w + (dy - 1) * w = d + dy * w := by omega
      rw [e1, hrec]
      have e2 : d + dy * w + n * (dy * w) = d + (n + 1) * (dy * w) := by omega
      rw [e2]
    · rw [hlen2, hclen, length_splice _ _ _ hw1]
    · have hr1 : (r + 1) * w ≤ dy * w := Nat.mul_le_mul_right w (by omega)
      have hr2 : (r + 1) * w = r * w + w := Nat.succ_mul r w
      match g with
      | 0 =>
        have hidx : d + 0 * (dy * w) + r * w + x = d + r * w + x := by omega
        rw [hidx, hpres2 (d + r * w + x) (by omega), hcchar (d + r * w + x)]
        match r with
        | 0 =>
          rw [if_neg (by omega), getD_splice _ _ _ _ hw1, hrowlen,
            if_pos (by omega),
            show d + 0 * w + x - d = x from by omega,
            hrowval x hx]
          rw [show sIdx + 0 * worg + (x - xoff) / dx
            = sIdx + (x - xoff) / dx from by omega]
        | r' + 1 =>
          have hw0 : 0 < w := by omega
          have hr3 : (r' + 1) * w = r' * w + w := Nat.succ_mul r' w
          rw [if_pos (by omega)]
          rw [show d + w - w + (d + (r' + 1) * w + x - (d + w)) % w
              = d + (d + (r' + 1) * w + x - (d + w)) % w from by omega]
          have hmodx : (d + (r' + 1) * w + x - (d + w)) % w = x := by
            rw [show d + (r' + 1) * w + x - (d + w) = x + r' * w from by
              omega]
            rw [Nat.add_mul_mod_self_right, Nat.mod_eq_of_lt hx]
          rw [hmodx, getD_splice _ _ _ _ hw1, hrowlen, if_pos (by omega),
            show d + x - d = x from by omega, hrowval x hx]
          rw [show sIdx + 0 * worg + (x - xoff) / dx
            = sIdx + (x - xoff) / dx from by omega]
      | g' + 1 =>
        have hg1 : (g' + 1) * (dy * w) = g' * (dy * w) + dy * w :=
          Nat.succ_mul g' (dy * w)
        have hidx : d + (g' + 1) * (dy * w) + r * w + x
            = d + dy * w + g' * (dy * w) + r * w + x := by omega
        rw [hidx, hchar2 g' r x (by omega) hr hx]
        have hg2 : (g' + 1) * worg = g' * worg + worg := Nat.succ_mul g' worg
        by_cases hx0 : x < xoff
        · rw [if_pos hx0, if_pos hx0]
        · rw [if_neg hx0, if_neg hx0]
          congr 2
          omega
    · have hj2 : j < d + dy * w ∨ d + dy * w + n * (dy * w) ≤ j := by
        rcases hj with hl | hr
        · exact Or.inl (by omega)
        · exact Or.inr (by omega)
      rw [hpres2 j hj2, hcchar j]
      rcases hj with hl | hr
      · rw [if_neg (by omega), getD_splice _ _ _ _ hw1,
          if_neg (by rw [hrowlen]; omega)]
      · rw [if_neg (by omega), getD_splice _ _ _ _ hw1,
          if_neg (by rw [hrowlen]; omega)]

lemma upsampleFill_spec (src : List Int) (worg xoff yoff dx dy w h : Nat)
    (hdx : 1 ≤ dx) (hdy : 1 ≤ dy) (hxw : xoff ≤ w) (hyh : yoff ≤ h)
    (hread : ∀ g k, yoff + dy * g < h → xoff + dx * k < w →
      g * worg + k < src.length) :
    ∃ dstF, upsampleFill src worg xoff yoff dx dy w h = some dstF ∧
      dstF.length = w * h ∧
      ∀ Yc x, Yc < h → x < w →
        dstF.getD (Yc * w + x) 0 =
          if Yc < yoff then 0
          else if x < xoff then 0
          else src.getD ((Yc - yoff) / dy * worg + (x - xoff) / dx) 0 := by
  have hcomm : w * h = h * w := Nat.mul_comm w h
  have hdm2 := Nat.div_add_mod (h - yoff) dy
  have hml2 : (h - yoff) % dy < dy := Nat.mod_lt _ (by omega)
  have hyw : yoff * w ≤ h * w := Nat.mul_le_mul_right w hyh
  have hy2 : yoff + dy * ((h - yoff) / dy) ≤ h := by omega
  have hy2w : (yoff + dy * ((h - yoff) / dy)) * w ≤ h * w :=
    Nat.mul_le_mul_right w hy2
  have hy2d : (yoff + dy * ((h - yoff) / dy)) * w
      = yoff * w + ((h - yoff) / dy) * (dy * w) := by ring
  have hlen0 : (List.replicate (w * h) (0 : Int)).length = w * h :=
    List.length_replicate _ _
  obtain ⟨dst1, hzero, hlen1, hchar1⟩ := zeroRows_spec w yoff 0
    (List.replicate (w * h) (0 : Int)) (by rw [hlen0]; omega)
  obtain ⟨dst2, hfill, hlen2, hchar2, hpres2⟩ := fillGroups_spec src worg
    xoff dx w dy hdx hdy hxw ((h - yoff) / dy) 0 (0 + yoff * w) dst1
    (by rw [hlen1, hlen0]; omega)
    (fun g k hg hk => by
      have hdyg : dy * (g + 1) ≤ dy * ((h - yoff) / dy) :=
        Nat.mul_le_mul_left dy (by omega)
      have hdyg2 : dy * (g + 1) = dy * g + dy := Nat.mul_succ dy g
      have := hread g k (by omega) hk
      omega)
  simp only [upsampleFill]
  rw [hzero]
  simp only [Option.bind_eq_bind, Option.some_bind]
  rw [hfill]
  simp only [Option.some_bind]
  by_cases hpart : yoff + dy * ((h - yoff) / dy) < h
  · rw [if_pos hpart]
    obtain ⟨row, hbrow, hrowlen, hrowval⟩ := buildRow_spec src
      (worg * ((h - yoff) / dy)) xoff dx w hdx hxw
      (fun k hk => by
        have := hread ((h - yoff) / dy) k hpart hk
        have hcm : worg * ((h - yoff) / dy) = (h - yoff) / dy * worg :=
          Nat.mul_comm _ _
        omega)
    rw [hbrow]
    simp only [Option.some_bind]
    have htw3 : (yoff + dy * ((h - yoff) / dy) + 1) * w ≤ h * w :=
      Nat.mul_le_mul_right w (by omega)
    have htw2 : (yoff + dy * ((h - yoff) / dy) + 1) * w
        = yoff * w + (h - yoff) / dy * (dy * w) + w := by ring
    have hd2w : 0 + yoff * w + (h - yoff) / dy * (dy * w) + row.length
        ≤ dst2.length := by
      rw [hrowlen, hlen2, hlen1, hlen0]
      omega
    rw [writeAt_some _ _ _ hd2w]
    simp only [Option.some_bind]
    have htw : (h - (yoff + dy * ((h - yoff) / dy) + 1)) * w
        = h * w - (yoff + dy * ((h - yoff) / dy) + 1) * w :=
      Nat.sub_mul _ _ _
    obtain ⟨dst4, hcopy, hlen4, hchar4⟩ := copyRows_spec w
      (h - (yoff + dy * ((h - yoff) / dy) + 1))
      (0 + yoff * w + (h - yoff) / dy * (dy * w) + w)
      (dst2.take (0 + yoff * w + (h - yoff) / dy * (dy * w)) ++ row
        ++ dst2.drop (0 + yoff * w + (h - yoff) / dy * (dy * w)
          + row.length))
      (by omega)
      (by rw [length_splice _ _ _ hd2w, hlen2, hlen1, hlen0]; omega)
    rw [hcopy]
    simp only [Option.some_bind]
    refine ⟨dst4, rfl, ?_, fun Yc x hYc hx => ?_⟩
    · rw [hlen4, length_splice _ _ _ hd2w, hlen2, hlen1, hlen0]
    · have hxc1 : (Yc + 1) * w ≤ h * w := Nat.mul_le_mul_right w (by omega)
      have hxc2 : (Yc + 1) * w = Yc * w + w := Nat.succ_mul Yc w
      by_cases hc1 : Yc < yoff
      · have hycw : (Yc + 1) * w ≤ yoff * w := Nat.mul_le_mul_right w hc1
        rw [if_pos hc1,
          hchar4 _, if_neg (by omega),
          getD_splice _ _ _ _ hd2w, if_neg (by rw [hrowlen]; omega),
          hpres2 _ (by omega),
          hchar1 _, if_pos (by omega)]
      · rw [if_neg hc1]
        have hg := Nat.div_add_mod (Yc - yoff) dy
        have hgml : (Yc - yoff) % dy < dy := Nat.mod_lt _ (by omega)
        by_cases hc2 : Yc < yoff + dy * ((h - yoff) / dy)
        · have hgn : (Yc - yoff) / dy < (h - yoff) / dy := by
            by_contra hcon
            have := Nat.mul_le_mul_left dy (show (h - yoff) / dy
              ≤ (Yc - yoff) / dy from by omega)
            omega
          have hYcd : Yc = yoff + dy * ((Yc - yoff) / dy)
              + (Yc - yoff) % dy := by omega
          have hidx : Yc * w + x = 0 + yoff * w
              + (Yc - yoff) / dy * (dy * w) + (Yc - yoff) % dy * w + x := by
            conv_lhs => rw [hYcd]
            ring
          have hbound : Yc * w + x < 0 + yoff * w
              + (h - yoff) / dy * (dy * w) := by
            have h1 : (Yc + 1) * w ≤ (yoff + dy * ((h - yoff) / dy)) * w :=
              Nat.mul_le_mul_right w (by omega)
            omega
          rw [hchar4 _, if_neg (by omega),
            getD_splice _ _ _ _ hd2w, if_neg (by rw [hrowlen]; omega),
            hidx, hchar2 _ _ _ hgn hgml hx]
          by_cases hx0 : x < xoff
          · rw [if_pos hx0, if_pos hx0]
          · rw [if_neg hx0, if_neg hx0]
            congr 2
            omega
        · have hr0 : Yc - (yoff + dy * ((h - yoff) / dy))
              < (h - yoff) % dy := by omega
          by_cases hr1 : Yc = yoff + dy * ((h - yoff) / dy)
          · have hidx : Yc * w + x = 0 + yoff * w
                + (h - yoff) / dy * (dy * w) + x := by
              conv_lhs => rw [hr1]
              ring
            rw [hchar4 _, if_neg (by omega), hidx,
              getD_splice _ _ _ _ hd2w, if_pos (by rw [hrowlen]; omega),
              show 0 + yoff * w + (h - yoff) / dy * (dy * w) + x
                - (0 + yoff * w + (h - yoff) / dy * (dy * w)) = x from by
                omega,
              hrowval x hx]
            by_cases hx0 : x < xoff
            · rw [if_pos hx0, if_pos hx0]
            · rw [if_neg hx0, if_neg hx0]
              congr 2
              have : Yc - yoff = dy * ((h - yoff) / dy) := by omega
              rw [this, Nat.mul_div_cancel_left _ (show 0 < dy by omega)]
              ring
          · have hw0 : 0 < w := by omega
            have hrge : yoff + dy * ((h - yoff) / dy) + 1 ≤ Yc := by omega
            have hidx : Yc * w + x = 0 + yoff * w
                + (h - yoff) / dy * (dy * w) + w
                + (Yc - (yoff + dy * ((h - yoff) / dy) + 1)) * w + x := by
              conv_lhs =>
                rw [show Yc = yoff + dy * ((h - yoff) / dy) + 1
                  + (Yc - (yoff + dy * ((h - yoff) / dy) + 1)) from by
                  omega]
              ring
            have hbnd : Yc * w + x < 0 + yoff * w
                + (h - yoff) / dy * (dy * w) + w
                + (h - (yoff + dy * ((h - yoff) / dy) + 1)) * w := by
              have h1 : (Yc - (yoff + dy * ((h - yoff) / dy) + 1)) + 1
                  ≤ h - (yoff + dy * ((h - yoff) / dy) + 1) := by omega
              have h2 := Nat.mul_le_mul_right w h1
              have h3 : ((Yc - (yoff + dy * ((h - yoff) / dy) + 1)) + 1) * w
                  = (Yc - (yoff + dy * ((h - yoff) / dy) + 1)) * w + w :=
                Nat.succ_mul _ w
              omega
            rw [hchar4 _, if_pos (by omega)]
            have hmodx : (Yc * w + x
                - (0 + yoff * w + (h - yoff) / dy * (dy * w) + w)) % w
                = x := by
              rw [show Yc * w + x
                  - (0 + yoff * w + (h - yoff) / dy * (dy * w) + w)
                  = x + (Yc - (yoff + dy * ((h - yoff) / dy) + 1)) * w from by
                omega]
              rw [Nat.add_mul_mod_self_right, Nat.mod_eq_of_lt hx]
            rw [show 0 + yoff * w + (h - yoff) / dy * (dy * w) + w - w
                = 0 + yoff * w + (h - yoff) / dy * (dy * w) from by omega,
              hmodx,
              getD_splice _ _ _ _ hd2w, if_pos (by rw [hrowlen]; omega),
              show 0 + yoff * w + (h - yoff) / dy * (dy * w) + x
                - (0 + yoff * w + (h - yoff) / dy * (dy * w)) = x from by
                omega,
              hrowval x hx]
            by_cases hx0 : x < xoff
            · rw [if_pos hx0, if_pos hx0]
            · rw [if_neg hx0, if_neg hx0]
              have hYd : Yc - yoff = dy * ((h - yoff) / dy)
                  + (Yc - (yoff + dy * ((h - yoff) / dy))) := by omega
              have hdiv : (Yc - yoff) / dy = (h - yoff) / dy := by
                rw [hYd, Nat.mul_add_div (show 0 < dy by omega),
                  Nat.div_eq_of_lt (show
                    Yc - (yoff + dy * ((h - yoff) / dy)) < dy by omega)]
                omega
              rw [hdiv, Nat.mul_comm ((h - yoff) / dy) worg]
  · rw [if_neg hpart]
    refine ⟨dst2, rfl, ?_, fun Yc x hYc hx => ?_⟩
    · rw [hlen2, hlen1, hlen0]
    · have hxc1 : (Yc + 1) * w ≤ h * w := Nat.mul_le_mul_right w (by omega)
      have hxc2 : (Yc + 1) * w = Yc * w + w := Nat.succ_mul Yc w
      by_cases hc1 : Yc < yoff
      · have hycw : (Yc + 1) * w ≤ yoff * w := Nat.mul_le_mul_right w hc1
        rw [if_pos hc1, hpres2 _ (by omega), hchar1 _, if_pos (by omega)]
      · rw [if_neg hc1]
        have hg := Nat.div_add_mod (Yc - yoff) dy
        have hgml : (Yc - yoff) % dy < dy := Nat.mod_lt _ (by omega)
        have hgn : (Yc - yoff) / dy < (h - yoff) / dy := by
          by_contra hcon
          have := Nat.mul_le_mul_left dy (show (h - yoff) / dy
            ≤ (Yc - yoff) / dy from by omega)
          omega
        have hYcd : Yc = yoff + dy * ((Yc - yoff) / dy)
            + (Yc - yoff) % dy := by omega
        have hidx : Yc * w + x = 0 + yoff * w
            + (Yc - yoff) / dy * (dy * w) + (Yc - yoff) % dy * w + x := by
          conv_lhs => rw [hYcd]
          ring
        rw [hidx, hchar2 _ _ _ hgn hgml hx]
        by_cases hx0 : x < xoff
        · rw [if_pos hx0, if_pos hx0]
        · rw [if_neg hx0, if_neg hx0]
          congr 2
          omega

/-! ## Range invariant: every cell of a converter output buffer stays in
`[0, upb]` (the written cells are `sycc_to_rgb` results, which are clamped;
the initial buffer holds zeros). -/

lemma outIn_store (upb : Int) (f : Nat → Pix) (i : Nat) (v : Pix)
    (h : ∀ j, pixIn upb (f j)) (hv : pixIn upb v) :
    ∀ j, pixIn upb (store f i v j) := by
  intro j
  unfold store
  split_ifs
  · exact hv
  · exact h j

lemma emit_outIn (F : ChromaMul) (offset upb : Int) (Y : Nat → Int)
    (cbv crv : Int) (hupb : 0 ≤ upb) (s : CState)
    (h : ∀ j, pixIn upb (s.out j)) :
    ∀ j, pixIn upb ((emit F offset upb Y cbv crv s).out j) := by
  intro j
  simp only [emit_out]
  exact outIn_store _ _ _ _ h (sycc_pixIn _ _ _ _ _ _ hupb) j

lemma pair422_outIn (F : ChromaMul) (offset upb : Int) (Y CB CR : Nat → Int)
    (hupb : 0 ≤ upb) : ∀ n (s : CState), (∀ j, pixIn upb (s.out j)) →
    ∀ j, pixIn upb ((pair422 F offset upb Y CB CR n s).out j) := by
  intro n
  induction n with
  | zero => intro s h j; exact h j
  | succ n ih =>
    intro s h j
    refine ih _ (fun j2 => ?_) j
    exact emit_outIn F offset upb Y _ _ hupb _
      (emit_outIn F offset upb Y _ _ hupb _ h) j2

lemma head422_outIn (F : ChromaMul) (offset upb : Int) (Y : Nat → Int)
    (offx : Nat) (hupb : 0 ≤ upb) (s : CState)
    (h : ∀ j, pixIn upb (s.out j)) :
    ∀ j, pixIn upb ((head422 F offset upb Y offx s).out j) := by
  unfold head422
  split_ifs
  · exact emit_outIn F offset upb Y _ _ hupb _ h
  · exact h

lemma tail422_outIn (F : ChromaMul) (offset upb : Int) (Y CB CR : Nat → Int)
    (loopmaxw : Nat) (hupb : 0 ≤ upb) (s : CState)
    (h : ∀ j, pixIn upb (s.out j)) :
    ∀ j, pixIn upb ((tail422 F offset upb Y CB CR loopmaxw s).out j) := by
  unfold tail422
  split_ifs
  · intro j
    dsimp only
    exact emit_outIn F offset upb Y _ _ hupb _ h j
  · exact h

lemma row422_outIn (F : ChromaMul) (offset upb : Int) (Y CB CR : Nat → Int)
    (offx loopmaxw : Nat) (hupb : 0 ≤ upb) (s : CState)
    (h : ∀ j, pixIn upb (s.out j)) :
    ∀ j, pixIn upb ((row422 F offset upb Y CB CR offx loopmaxw s).out j) := by
  unfold row422
  exact tail422_outIn F offset upb Y CB CR loopmaxw hupb _
    (pair422_outIn F offset upb Y CB CR hupb _ _
      (head422_outIn F offset upb Y offx hupb _ h))

lemma rows422_outIn (F : ChromaMul) (offset upb : Int) (Y CB CR : Nat → Int)
    (offx loopmaxw : Nat) (hupb : 0 ≤ upb) : ∀ n (s : CState),
    (∀ j, pixIn upb (s.out j)) →
    ∀ j, pixIn upb ((rows422 F offset upb Y CB CR offx loopmaxw n s).out j) := by
  intro n
  induction n with
  | zero => intro s h j; exact h j
  | succ n ih =>
    intro s h j
    exact ih _ (row422_outIn F offset upb Y CB CR offx loopmaxw hupb _ h) j

lemma emitC_outIn (F : ChromaMul) (offset upb : Int) (Y : Nat → Int)
    (cbv crv : Int) (hupb : 0 ≤ upb) (s : DState)
    (h : ∀ j, pixIn upb (s.out j)) :
    ∀ j, pixIn upb ((emitC F offset upb Y cbv crv s).out j) := by
  intro j
  simp only [emitC_out]
  exact outIn_store _ _ _ _ h (sycc_pixIn _ _ _ _ _ _ hupb) j

lemma emitN_outIn (F : ChromaMul) (offset upb : Int) (Y : Nat → Int)
    (cbv crv : Int) (hupb : 0 ≤ upb) (s : DState)
    (h : ∀ j, pixIn upb (s.out j)) :
    ∀ j, pixIn upb ((emitN F offset upb Y cbv crv s).out j) := by
  intro j
  simp only [emitN_out]
  exact outIn_store _ _ _ _ h (sycc_pixIn _ _ _ _ _ _ hupb) j

lemma pair420_outIn (F : ChromaMul) (offset upb : Int) (Y CB CR : Nat → Int)
    (hupb : 0 ≤ upb) : ∀ n (s : DState), (∀ j, pixIn upb (s.out j)) →
    ∀ j, pixIn upb ((pair420 F offset upb Y CB CR n s).out j) := by
  intro n
  induction n with
  | zero => intro s h j; exact h j
  | succ n ih =>
    intro s h j
    refine ih _ (fun j2 => ?_) j
    exact emitN_outIn F offset upb Y _ _ hupb _
      (emitN_outIn F offset upb Y _ _ hupb _
        (emitC_outIn F offset upb Y _ _ hupb _
          (emitC_outIn F offset upb Y _ _ hupb _ h))) j2

lemma head420_outIn (F : ChromaMul) (offset upb : Int) (Y CB CR : Nat → Int)
    (offx : Nat) (hupb : 0 ≤ upb) (s : DState)
    (h : ∀ j, pixIn upb (s.out j)) :
    ∀ j, pixIn upb ((head420 F offset upb Y CB CR offx s).out j) := by
  unfold head420
  split_ifs
  · intro j
    dsimp only
    exact emitN_outIn F offset upb Y _ _ hupb _
      (emitC_outIn F offset upb Y _ _ hupb _ h) j
  · exact h

lemma tail420_outIn (F : ChromaMul) (offset upb : Int) (Y CB CR : Nat → Int)
    (loopmaxw : Nat) (hupb : 0 ≤ upb) (s : DState)
    (h : ∀ j, pixIn upb (s.out j)) :
    ∀ j, pixIn upb ((tail420 F offset upb Y CB CR loopmaxw s).out j) := by
  unfold tail420
  split_ifs
  · intro j
    dsimp only
    exact emitN_outIn F offset upb Y _ _ hupb _
      (emitC_outIn F offset upb Y _ _ hupb _ h) j
  · exact h

lemma rowPair420_outIn (F : ChromaMul) (offset upb : Int)
    (Y CB CR : Nat → Int) (maxw offx loopmaxw : Nat) (hupb : 0 ≤ upb)
    (s : DState) (h : ∀ j, pixIn upb (s.out j)) :
    ∀ j, pixIn upb
      ((rowPair420 F offset upb Y CB CR maxw offx loopmaxw s).out j) := by
  unfold rowPair420
  intro j
  dsimp only
  refine tail420_outIn F offset upb Y CB CR loopmaxw hupb _
    (pair420_outIn F offset upb Y CB CR hupb _ _
      (head420_outIn F offset upb Y CB CR offx hupb _ (fun j2 => ?_))) j
  exact h j2

lemma rowsPair420_outIn (F : ChromaMul) (offset upb : Int)
    (Y CB CR : Nat → Int) (maxw offx loopmaxw : Nat) (hupb : 0 ≤ upb) :
    ∀ n (s : DState), (∀ j, pixIn upb (s.out j)) →
    ∀ j, pixIn upb
      ((rowsPair420 F offset upb Y CB CR maxw offx loopmaxw n s).out j) := by
  intro n
  induction n with
  | zero => intro s h j; exact h j
  | succ n ih =>
    intro s h j
    exact ih _
      (rowPair420_outIn F offset upb Y CB CR maxw offx loopmaxw hupb _ h) j

lemma neutralRow420_outIn (F : ChromaMul) (offset upb : Int) (Y : Nat → Int)
    (hupb : 0 ≤ upb) : ∀ n (s : DState), (∀ j, pixIn upb (s.out j)) →
    ∀ j, pixIn upb ((neutralRow420 F offset upb Y n s).out j) := by
  intro n
  induction n with
  | zero => intro s h j; exact h j
  | succ n ih =>
    intro s h j
    exact ih _ (emitC_outIn F offset upb Y _ _ hupb _ h) j

lemma lastPairs420_outIn (F : ChromaMul) (offset upb : Int)
    (Y CB CR : Nat → Int) (hupb : 0 ≤ upb) : ∀ n (s : DState),
    (∀ j, pixIn upb (s.out j)) →
    ∀ j, pixIn upb ((lastPairs420 F offset upb Y CB CR n s).out j) := by
  intro n
  induction n with
  | zero => intro s h j; exact h j
  | succ n ih =>
    intro s h j
    refine ih _ (fun j2 => ?_) j
    exact emitC_outIn F offset upb Y _ _ hupb _
      (emitC_outIn F offset upb Y _ _ hupb _ h) j2

lemma lastRow420_outIn (F : ChromaMul) (offset upb : Int)
    (Y CB CR : Nat → Int) (maxw : Nat) (hupb : 0 ≤ upb) (s : DState)
    (h : ∀ j, pixIn upb (s.out j)) :
    ∀ j, pixIn upb ((lastRow420 F offset upb Y CB CR maxw s).out j) := by
  unfold lastRow420 lastTail420
  split_ifs
  · intro j
    dsimp only
    refine outIn_store _ _ _ _ (fun j2 => ?_)
      (sycc_pixIn _ _ _ _ _ _ hupb) j
    exact lastPairs420_outIn F offset upb Y CB CR hupb _ _ h j2
  · exact lastPairs420_outIn F offset upb Y CB CR hupb _ _ h

lemma run420_outIn (F : ChromaMul) (offset upb : Int) (Y CB CR : Nat → Int)
    (maxw offx loopmaxw offy loopmaxh : Nat) (hupb : 0 ≤ upb) :
    ∀ j, pixIn upb
      ((run420 F offset upb Y CB CR maxw offx loopmaxw offy loopmaxh).out
        j) := by
  have h0 : ∀ j, pixIn upb
      ((fun _ => ((0:Int), (0:Int), (0:Int)) : Nat → Pix) j) :=
    fun _ => ⟨⟨le_refl 0, hupb⟩, ⟨le_refl 0, hupb⟩, ⟨le_refl 0, hupb⟩⟩
  unfold run420
  intro j
  dsimp only
  split_ifs with h1 h2 h2
  · refine lastRow420_outIn F offset upb Y CB CR maxw hupb _
      (rowsPair420_outIn F offset upb Y CB CR maxw offx loopmaxw hupb _ _
        (neutralRow420_outIn F offset upb Y hupb _ _ (fun j3 => ?_))) j
    exact h0 j3
  · refine lastRow420_outIn F offset upb Y CB CR maxw hupb _
      (rowsPair420_outIn F offset upb Y CB CR maxw offx loopmaxw hupb _ _
        (fun j3 => ?_)) j
    exact h0 j3
  · refine rowsPair420_outIn F offset upb Y CB CR maxw offx loopmaxw hupb _ _
      (neutralRow420_outIn F offset upb Y hupb _ _ (fun j3 => ?_)) j
    exact h0 j3
  · refine rowsPair420_outIn F offset upb Y CB CR maxw offx loopmaxw hupb _ _
      (fun j3 => ?_) j
    exact h0 j3

/-! ## Image-level plumbing -/

lemma getD_range_map {α : Type} (f : Nat → α) (d : α) (m i : Nat)
    (hi : i < m) : ((List.range m).map f).getD i d = f i := by
  rw [List.getD_eq_getElem _ _ (by simpa using hi)]
  simp

lemma mem_map_range {f : Nat → Int} {m : Nat} {v : Int}
    (hv : v ∈ (List.range m).map f) : ∃ j, j < m ∧ v = f j := by
  simp only [List.mem_map, List.mem_range] at hv
  obtain ⟨j, hj, he⟩ := hv
  exact ⟨j, hj, he.symm⟩

/-- The RGB triple at offset `j` of the first three planes of an image:
`(comps[0].data[j], comps[1].data[j], comps[2].data[j])`. -/
def rgbAt (img : Image) (j : Nat) : Pix :=
  (rd (img.comp 0).data j, rd (img.comp 1).data j, rd (img.comp 2).data j)

lemma rgbAt_of_planes (img2 : Image) (m i : Nat) (hi : i < m)
    (pix : Nat → Pix)
    (h0 : (img2.comp 0).data = (List.range m).map (fun j => (pix j).1))
    (h1 : (img2.comp 1).data = (List.range m).map (fun j => (pix j).2.1))
    (h2 : (img2.comp 2).data = (List.range m).map (fun j => (pix j).2.2)) :
    rgbAt img2 i = pix i := by
  unfold rgbAt rd
  rw [h0, h1, h2, getD_range_map _ _ _ _ hi, getD_range_map _ _ _ _ hi,
    getD_range_map _ _ _ _ hi]

lemma planes_bound (img2 : Image) (m : Nat) (pix : Nat → Pix) (upb : Int)
    (h0 : (img2.comp 0).data = (List.range m).map (fun j => (pix j).1))
    (h1 : (img2.comp 1).data = (List.range m).map (fun j => (pix j).2.1))
    (h2 : (img2.comp 2).data = (List.range m).map (fun j => (pix j).2.2))
    (hb : ∀ j, pixIn upb (pix j)) :
    ∀ i, i < 3 → ∀ v ∈ (img2.comp i).data, 0 ≤ v ∧ v ≤ upb := by
  intro i hi v hv
  interval_cases i
  · rw [h0] at hv
    obtain ⟨j, hj, rfl⟩ := mem_map_range hv
    exact (hb j).1
  · rw [h1] at hv
    obtain ⟨j, hj, rfl⟩ := mem_map_range hv
    exact (hb j).2.1
  · rw [h2] at hv
    obtain ⟨j, hj, rfl⟩ := mem_map_range hv
    exact (hb j).2.2

/-- The pixel function realised by `sycc444_to_rgb` on success: output
sample `j` of the three planes is the conversion of input sample `j`. -/
def pix444 (F : ChromaMul) (img : Image) (j : Nat) : Pix :=
  sycc_to_rgb F (2 ^ ((img.comp 0).prec - 1)) (2 ^ (img.comp 0).prec - 1)
    (rd (img.comp 0).data j) (rd (img.comp 1).data j) (rd (img.comp 2).data j)

/-- The final pointer-walk state of `sycc422_to_rgb` on success. -/
def fin422St (F : ChromaMul) (img : Image) : CState :=
  rows422 F (2 ^ ((img.comp 0).prec - 1)) (2 ^ (img.comp 0).prec - 1)
    (rd (img.comp 0).data) (rd (img.comp 1).data) (rd (img.comp 2).data)
    (img.x0 % 2) ((img.comp 0).w - img.x0 % 2) (img.comp 0).h
    ⟨0, 0, 0, fun _ => (0, 0, 0)⟩

/-- The pixel function realised by `sycc422_to_rgb` on success. -/
def pix422 (F : ChromaMul) (img : Image) (j : Nat) : Pix :=
  (fin422St F img).out j

/-- The final pointer-walk state of `sycc420_to_rgb` on success. -/
def fin420St (F : ChromaMul) (img : Image) : DState :=
  run420 F (2 ^ ((img.comp 0).prec - 1)) (2 ^ (img.comp 0).prec - 1)
    (rd (img.comp 0).data) (rd (img.comp 1).data) (rd (img.comp 2).data)
    (img.comp 0).w (img.x0 % 2) ((img.comp 0).w - img.x0 % 2)
    (img.y0 % 2) ((img.comp 0).h - img.y0 % 2)

/-- The pixel function realised by `sycc420_to_rgb` on success. -/
def pix420 (F : ChromaMul) (img : Image) (j : Nat) : Pix :=
  (fin420St F img).out j

lemma sycc444_rgbAt (F : ChromaMul) (img : Image) (i : Nat)
    (hi : i < (img.comp 0).w * (img.comp 0).h) :
    rgbAt (sycc444_to_rgb F true true true img) i = pix444 F img i :=
  rgbAt_of_planes _ _ i hi (pix444 F img) rfl rfl rfl

lemma sycc422_rgbAt (F : ChromaMul) (img : Image) (i : Nat)
    (hi : i < (img.comp 0).w * (img.comp 0).h) :
    rgbAt (sycc422_to_rgb F true true true img) i = pix422 F img i :=
  rgbAt_of_planes _ _ i hi (pix422 F img) rfl rfl rfl

lemma sycc420_rgbAt (F : ChromaMul) (img : Image) (i : Nat)
    (hi : i < (img.comp 0).w * (img.comp 0).h) :
    rgbAt (sycc420_to_rgb F true true true img) i = pix420 F img i :=
  rgbAt_of_planes _ _ i hi (pix420 F img) rfl rfl rfl

lemma usub32_eq (a b : Nat) (ha : a < 2 ^ 32) (hb : b < 2 ^ 32)
    (hba : b ≤ a) : usub32 a b = a - b := by
  unfold usub32
  have h232 : (2:Nat) ^ 32 = 4294967296 := by norm_num
  rw [h232] at ha hb ⊢
  rw [Nat.mod_eq_of_lt ha, Nat.mod_eq_of_lt hb]
  omega

lemma upsampleComps_some (img : Image) : ∀ (l l2 : List Comp),
    upsampleComps img l = some l2 →
    l2.length = l.length ∧
      ∀ i, i < l.length →
        upsampleComp img (l.getD i default) = some (l2.getD i default) := by
  intro l
  induction l with
  | nil =>
    intro l2 h
    simp only [upsampleComps, Option.some.injEq] at h
    subst h
    exact ⟨rfl, fun i hi => absurd hi (by simp)⟩
  | cons c rest ih =>
    intro l2 h
    simp only [upsampleComps, Option.bind_eq_bind] at h
    cases hc : upsampleComp img c with
    | none => rw [hc] at h; simp at h
    | some c2 =>
      rw [hc] at h
      cases hr : upsampleComps img rest with
      | none => rw [hr] at h; simp at h
      | some rest2 =>
        rw [hr] at h
        simp only [Option.some_bind, Option.some.injEq] at h
        subst h
        obtain ⟨hlen, hidx⟩ := ih rest2 hr
        refine ⟨by simp [hlen], fun i hi => ?_⟩
        match i with
        | 0 => simpa using hc
        | i + 1 =>
          simp only [List.getD_cons_succ]
          exact hidx i (by simpa using hi)

lemma upsampleComps_none (img : Image) : ∀ (l : List Comp),
    (∃ c ∈ l, upsampleComp img c = none) → upsampleComps img l = none := by
  intro l
  induction l with
  | nil => intro h; simp at h
  | cons c rest ih =>
    intro h
    simp only [upsampleComps, Option.bind_eq_bind]
    obtain ⟨c0, hmem, hnone⟩ := h
    rcases List.mem_cons.1 hmem with rfl | hrest
    · rw [hnone]
      rfl
    · cases hc : upsampleComp img c with
      | none => rfl
      | some c2 =>
        rw [ih ⟨c0, hrest, hnone⟩]
        rfl

lemma upsampleComp_invalid (img : Image) (c : Comp)
    (hd : 1 < c.dx ∨ 1 < c.dy)
    (hoff : c.dx ≤ usub32 (c.dx * c.x0) img.x0 ∨
      c.dy ≤ usub32 (c.dy * c.y0) img.y0) :
    upsampleComp img c = none := by
  unfold upsampleComp
  rw [if_pos hd]
  dsimp only
  rw [if_pos hoff]

/-- Full characterisation of `upsampleComp` on the success path of an
upsampled component: the new shape and every destination sample. -/
lemma upsampleComp_spec (img : Image) (c : Comp) (wN hN xoff yoff : Nat)
    (hup : 1 < c.dx ∨ 1 < c.dy) (hdx : 1 ≤ c.dx) (hdy : 1 ≤ c.dy)
    (hwN : wN = if 1 < c.dx then usub32 img.x1 img.x0 else c.w)
    (hhN : hN = if 1 < c.dy then usub32 img.y1 img.y0 else c.h)
    (hxoff : xoff = usub32 (c.dx * c.x0) img.x0)
    (hyoff : yoff = usub32 (c.dy * c.y0) img.y0)
    (hxv : xoff < c.dx) (hyv : yoff < c.dy)
    (hxw : xoff ≤ wN) (hyh : yoff ≤ hN)
    (hcovx : wN ≤ xoff + c.dx * c.w) (hcovy : hN ≤ yoff + c.dy * c.h)
    (hlen : c.data.length = c.w * c.h) :
    ∃ dstF, upsampleComp img c = some { c with
        dx := 1, dy := 1, x0 := img.x0, y0 := img.y0,
        w := wN, h := hN, data := dstF } ∧
      dstF.length = wN * hN ∧
      ∀ Yc X, Yc < hN → X < wN →
        rd dstF (Yc * wN + X) =
          if Yc < yoff then 0
          else if X < xoff then 0
          else rd c.data ((Yc - yoff) / c.dy * c.w + (X - xoff) / c.dx) := by
  have hread : ∀ g k, yoff + c.dy * g < hN → xoff + c.dx * k < wN →
      g * c.w + k < c.data.length := by
    intro g k hg hk
    have hgh : g < c.h := by
      have h1 : c.dy * g < c.dy * c.h := by omega
      exact Nat.lt_of_mul_lt_mul_left h1
    have hkw : k < c.w := by
      have h1 : c.dx * k < c.dx * c.w := by omega
      exact Nat.lt_of_mul_lt_mul_left h1
    have h2 : (g + 1) * c.w ≤ c.h * c.w :=
      Nat.mul_le_mul_right c.w (by omega)
    have h3 : (g + 1) * c.w = g * c.w + c.w := Nat.succ_mul g c.w
    have h4 : c.w * c.h = c.h * c.w := Nat.mul_comm _ _
    omega
  obtain ⟨dstF, hfill, hlenF, hchar⟩ :=
    upsampleFill_spec c.data c.w xoff yoff c.dx c.dy wN hN hdx hdy hxw hyh
      hread
  unfold upsampleComp
  rw [if_pos hup]
  dsimp only
  rw [← hwN, ← hhN, ← hxoff, ← hyoff]
  rw [if_neg (show ¬(c.dx ≤ xoff ∨ c.dy ≤ yoff) by omega)]
  rw [hfill]
  simp only [Option.bind_eq_bind, Option.some_bind]
  exact ⟨dstF, rfl, hlenF, fun Yc X hY hX => hchar Yc X hY hX⟩

/-! ## Claims -/

/-- C5: Converter failure atomicity.  In each of `sycc444_to_rgb`,
`sycc422_to_rgb` and `sycc420_to_rgb`, if allocation of any of the three
destination buffers fails (some allocation flag is `false`), the function
returns with the image completely unchanged: component data, dimensions,
sub-sampling fields and the colour-space tag are exactly as on entry. -/
theorem claim_C5 (F : ChromaMul) (a1 a2 a3 : Bool) (img : Image)
    (h : (a1 && a2 && a3) = false) :
    sycc444_to_rgb F a1 a2 a3 img = img ∧
    sycc422_to_rgb F a1 a2 a3 img = img ∧
    sycc420_to_rgb F a1 a2 a3 img = img := by
  refine ⟨?_, ?_, ?_⟩ <;>
    simp [sycc444_to_rgb, sycc422_to_rgb, sycc420_to_rgb, h]

def imgW5 : Image :=
  ⟨0, 0, 1, 1, ColorSpace.SYCC,
    [⟨1, 1, 1, 1, 0, 0, 8, false, [10]⟩,
     ⟨1, 1, 1, 1, 0, 0, 8, false, [128]⟩,
     ⟨1, 1, 1, 1, 0, 0, 8, false, [128]⟩]⟩

theorem claim_C5_witness :
    sycc444_to_rgb Fq false true true imgW5 = imgW5 ∧
    sycc422_to_rgb Fq false true true imgW5 = imgW5 ∧
    sycc420_to_rgb Fq false true true imgW5 = imgW5 :=
  claim_C5 Fq false true true imgW5 (by decide)

/-- C6: For every image with at least three components whose `(dx, dy)`
layout matches none of the three supported layouts, `color_sycc_to_rgb`
is a no-op: the image (components, data, colour-space tag) is returned
exactly as on entry. -/
theorem claim_C6 (F : ChromaMul) (a1 a2 a3 : Bool) (img : Image)
    (h3 : 3 ≤ img.comps.length)
    (h420 : ¬((img.comp 0).dx = 1 ∧ (img.comp 0).dy = 1
      ∧ (img.comp 1).dx = 2 ∧ (img.comp 1).dy = 2
      ∧ (img.comp 2).dx = 2 ∧ (img.comp 2).dy = 2))
    (h422 : ¬((img.comp 0).dx = 1 ∧ (img.comp 0).dy = 1
      ∧ (img.comp 1).dx = 2 ∧ (img.comp 1).dy = 1
      ∧ (img.comp 2).dx = 2 ∧ (img.comp 2).dy = 1))
    (h444 : ¬((img.comp 0).dx = 1 ∧ (img.comp 0).dy = 1
      ∧ (img.comp 1).dx = 1 ∧ (img.comp 1).dy = 1
      ∧ (img.comp 2).dx = 1 ∧ (img.comp 2).dy = 1)) :
    color_sycc_to_rgb F a1 a2 a3 img = img := by
  unfold color_sycc_to_rgb
  rw [if_neg (by omega), if_neg h420, if_neg h422, if_neg h444]

def imgW6 : Image :=
  ⟨0, 0, 1, 1, ColorSpace.SYCC,
    [⟨1, 1, 1, 1, 0, 0, 8, false, [10]⟩,
     ⟨3, 3, 1, 1, 0, 0, 8, false, [128]⟩,
     ⟨3, 3, 1, 1, 0, 0, 8, false, [128]⟩]⟩

theorem claim_C6_witness : color_sycc_to_rgb Fq true true true imgW6 = imgW6 :=
  claim_C6 Fq true true true imgW6 (by decide) (by decide) (by decide)
    (by decide)

/-- C7: Upsampler identity.  For every image in which every component
already has `dx = 1` and `dy = 1`, `upsample_image_components` returns the
very same image (the early-return branch at decode.c lines 260-273),
regardless of how the allocations would have gone. -/
theorem claim_C7 (aParams aImage : Bool) (img : Image)
    (h : ∀ c ∈ img.comps, c.dx = 1 ∧ c.dy = 1) :
    upsample_image_components aParams aImage img = some img := by
  unfold upsample_image_components
  have hall : img.comps.all (fun c => c.dx ≤ 1 && c.dy ≤ 1) = true := by
    rw [List.all_eq_true]
    intro c hc
    obtain ⟨h1, h2⟩ := h c hc
    simp [h1, h2]
  rw [if_pos hall]

def imgW7 : Image :=
  ⟨0, 0, 2, 1, ColorSpace.SRGB,
    [⟨1, 1, 2, 1, 0, 0, 8, false, [10, 20]⟩,
     ⟨1, 1, 2, 1, 0, 0, 8, false, [30, 40]⟩]⟩

theorem claim_C7_witness :
    upsample_image_components false false imgW7 = some imgW7 :=
  claim_C7 false false imgW7 (by decide)

/-- C4: For every image containing a component with `dx > 1` or `dy > 1`
(so the upsampler does not take its early no-op branch), if any allocation
fails or some upsampled component has `xoff ≥ dx` or `yoff ≥ dy` (the
offsets being the `OPJ_UINT32` differences the code computes),
`upsample_image_components` destroys the image and returns NULL (`none`):
the caller receives no partial-success state. -/
theorem claim_C4 (aParams aImage : Bool) (img : Image)
    (hneed : ∃ c ∈ img.comps, 1 < c.dx ∨ 1 < c.dy)
    (hfail : aParams = false ∨ aImage = false ∨
      ∃ c ∈ img.comps, (1 < c.dx ∨ 1 < c.dy) ∧
        (c.dx ≤ usub32 (c.dx * c.x0) img.x0 ∨
         c.dy ≤ usub32 (c.dy * c.y0) img.y0)) :
    upsample_image_components aParams aImage img = none := by
  unfold upsample_image_components
  have hall : img.comps.all (fun c => c.dx ≤ 1 && c.dy ≤ 1) = false := by
    rw [List.all_eq_false]
    obtain ⟨c, hc, hd⟩ := hneed
    refine ⟨c, hc, ?_⟩
    simp only [Bool.and_eq_true, decide_eq_true_eq]
    omega
  rw [if_neg (by simp [hall])]
  rcases hfail with h1 | h1 | h1
  · subst h1
    rfl
  · subst h1
    cases aParams <;> rfl
  · cases aParams with
    | false => rfl
    | true =>
      cases aImage with
      | false => rfl
      | true =>
        simp only [Bool.not_true]
        rw [if_neg (by simp), if_neg (by simp)]
        obtain ⟨c, hc, hd, hoff⟩ := h1
        rw [upsampleComps_none img img.comps
          ⟨c, hc, upsampleComp_invalid img c hd hoff⟩]
        rfl

def imgW4 : Image :=
  ⟨0, 0, 2, 2, ColorSpace.SYCC,
    [⟨2, 2, 1, 1, 1, 1, 8, false, [10]⟩]⟩

theorem claim_C4_witness :
    upsample_image_components true true imgW4 = none :=
  claim_C4 true true imgW4 (by decide) (by decide)

/-- C2: Output range.  For every precision, with `upb = 2^prec - 1`, every
channel written by `sycc_to_rgb` lies in `[0, upb]` (for all integer
inputs and any chroma products); consequently every sample of the first
three planes produced by `sycc444_to_rgb`, `sycc422_to_rgb` and
`sycc420_to_rgb` lies in `[0, 2^prec - 1]`, `prec` being the luma
component's precision. -/
theorem claim_C2 :
    (∀ (F : ChromaMul) (offset : Int) (prec : Nat) (y cb cr : Int),
      pixIn (2 ^ prec - 1) (sycc_to_rgb F offset (2 ^ prec - 1) y cb cr)) ∧
    (∀ (F : ChromaMul) (img : Image) (i : Nat), i < 3 →
      ∀ v ∈ ((sycc444_to_rgb F true true true img).comp i).data,
        0 ≤ v ∧ v ≤ 2 ^ (img.comp 0).prec - 1) ∧
    (∀ (F : ChromaMul) (img : Image) (i : Nat), i < 3 →
      ∀ v ∈ ((sycc422_to_rgb F true true true img).comp i).data,
        0 ≤ v ∧ v ≤ 2 ^ (img.comp 0).prec - 1) ∧
    (∀ (F : ChromaMul) (img : Image) (i : Nat), i < 3 →
      ∀ v ∈ ((sycc420_to_rgb F true true true img).comp i).data,
        0 ≤ v ∧ v ≤ 2 ^ (img.comp 0).prec - 1) := by
  have hupb : ∀ prec : Nat, (0:Int) ≤ 2 ^ prec - 1 := by
    intro prec
    have h1 : (1:Int) ≤ 2 ^ prec := one_le_pow₀ (by norm_num)
    omega
  refine ⟨fun F offset prec y cb cr =>
      sycc_pixIn F offset _ y cb cr (hupb prec), ?_, ?_, ?_⟩
  · intro F img
    refine planes_bound _ _ (pix444 F img) _ rfl rfl rfl (fun j => ?_)
    unfold pix444
    exact sycc_pixIn _ _ _ _ _ _ (hupb _)
  · intro F img
    refine planes_bound _ _ (pix422 F img) _ rfl rfl rfl (fun j => ?_)
    unfold pix422 fin422St
    refine rows422_outIn F _ _ _ _ _ _ _ (hupb _) _ _ (fun j2 => ?_) j
    exact ⟨⟨le_refl 0, hupb _⟩, ⟨le_refl 0, hupb _⟩, ⟨le_refl 0, hupb _⟩⟩
  · intro F img
    refine planes_bound _ _ (pix420 F img) _ rfl rfl rfl (fun j => ?_)
    unfold pix420 fin420St
    exact run420_outIn F _ _ _ _ _ _ _ _ _ _ (hupb _) j

def imgW2 : Image :=
  ⟨0, 0, 1, 1, ColorSpace.SYCC,
    [⟨1, 1, 1, 1, 0, 0, 8, false, [100]⟩,
     ⟨1, 1, 1, 1, 0, 0, 8, false, [128]⟩,
     ⟨1, 1, 1, 1, 0, 0, 8, false, [128]⟩]⟩

theorem claim_C2_witness :
    pixIn (2 ^ 8 - 1) (sycc_to_rgb Fq 128 (2 ^ 8 - 1) 300 500 (-200)) ∧
    ((0:Int) ≤ 100 ∧ (100:Int) ≤ 2 ^ (imgW2.comp 0).prec - 1) ∧
    ((0:Int) ≤ 100 ∧ (100:Int) ≤ 2 ^ (imgW2.comp 0).prec - 1) ∧
    ((0:Int) ≤ 100 ∧ (100:Int) ≤ 2 ^ (imgW2.comp 0).prec - 1) :=
  ⟨claim_C2.1 Fq 128 8 300 500 (-200),
   claim_C2.2.1 Fq imgW2 0 (by decide) 100 (by decide),
   claim_C2.2.2.1 Fq imgW2 1 (by decide) 100 (by decide),
   claim_C2.2.2.2 Fq imgW2 2 (by decide) 100 (by decide)⟩

lemma map_range_ext (f : Nat → Int) (l : List Int) (m : Nat)
    (hlen : l.length = m) (h : ∀ i, i < m → f i = rd l i) :
    (List.range m).map f = l := by
  refine List.ext_getElem? fun i => ?_
  by_cases hi : i < m
  · have h1 : i < ((List.range m).map f).length := by simpa using hi
    have h2 : i < l.length := by omega
    rw [List.getElem?_eq_getElem h1, List.getElem?_eq_getElem h2]
    simp only [List.getElem_map, List.getElem_range]
    rw [h i hi]
    unfold rd
    rw [List.getD_eq_getElem l 0 h2]
  · rw [List.getElem?_eq_none
      (by simp only [List.length_map, List.length_range]; omega),
      List.getElem?_eq_none (by omega)]

/-- C8 (corrected): 4:4:4 neutral-chroma identity.  As stated the claim is
FALSE: `sycc_to_rgb` clamps each channel to `[0, 2^prec - 1]`, so a luma
sample outside that range comes back clamped, not equal to itself
(see `claim_C8_counterexample`).  The corrected statement: for any chroma
products that vanish at 0 (as the C float products `1.402*0.0`,
`0.344*0.0 + 0.714*0.0` and `1.772*0.0` do), an image whose chroma planes
are constantly `2^(prec-1)` and whose luma samples lie in
`[0, 2^prec - 1]` converts to `R = G = B = Y` on every pixel: all three
output planes equal the luma plane. -/
theorem claim_C8 (F : ChromaMul) (img : Image)
    (hF1 : F.rc 0 = 0) (hF2 : F.gc 0 0 = 0) (hF3 : F.bc 0 = 0)
    (hlen : (img.comp 0).data.length = (img.comp 0).w * (img.comp 0).h)
    (hcb : ∀ i, i < (img.comp 0).w * (img.comp 0).h →
      rd (img.comp 1).data i = 2 ^ ((img.comp 0).prec - 1))
    (hcr : ∀ i, i < (img.comp 0).w * (img.comp 0).h →
      rd (img.comp 2).data i = 2 ^ ((img.comp 0).prec - 1))
    (hy : ∀ i, i < (img.comp 0).w * (img.comp 0).h →
      0 ≤ rd (img.comp 0).data i ∧
        rd (img.comp 0).data i ≤ 2 ^ (img.comp 0).prec - 1) :
    ((sycc444_to_rgb F true true true img).comp 0).data =
        (img.comp 0).data ∧
    ((sycc444_to_rgb F true true true img).comp 1).data =
        (img.comp 0).data ∧
    ((sycc444_to_rgb F true true true img).comp 2).data =
        (img.comp 0).data := by
  have hpix : ∀ i, i < (img.comp 0).w * (img.comp 0).h →
      pix444 F img i =
        (rd (img.comp 0).data i, rd (img.comp 0).data i,
          rd (img.comp 0).data i) := by
    intro i hi
    unfold pix444 sycc_to_rgb
    dsimp only
    rw [hcb i hi, hcr i hi, sub_self, hF1, hF2, hF3]
    simp only [add_zero, sub_zero]
    rw [clamp_of_mem _ _ (hy i hi).1 (hy i hi).2]
  refine ⟨?_, ?_, ?_⟩
  · show (List.range ((img.comp 0).w * (img.comp 0).h)).map
        (fun j => (pix444 F img j).1) = (img.comp 0).data
    refine map_range_ext _ _ _ hlen (fun i hi => ?_)
    rw [hpix i hi]
  · show (List.range ((img.comp 0).w * (img.comp 0).h)).map
        (fun j => (pix444 F img j).2.1) = (img.comp 0).data
    refine map_range_ext _ _ _ hlen (fun i hi => ?_)
    rw [hpix i hi]
  · show (List.range ((img.comp 0).w * (img.comp 0).h)).map
        (fun j => (pix444 F img j).2.2) = (img.comp 0).data
    refine map_range_ext _ _ _ hlen (fun i hi => ?_)
    rw [hpix i hi]

def imgW8 : Image :=
  ⟨0, 0, 1, 1, ColorSpace.SYCC,
    [⟨1, 1, 1, 1, 0, 0, 8, true, [-1]⟩,
     ⟨1, 1, 1, 1, 0, 0, 8, false, [128]⟩,
     ⟨1, 1, 1, 1, 0, 0, 8, false, [128]⟩]⟩

/-- C8 counterexample: a 1×1 4:4:4 image with neutral chroma
(`Cb = Cr = 128 = 2^(8-1)`) but luma sample `-1`.  The claim asserts
`R = G = B = Y` at every pixel; the code instead clamps the channels to
`[0, 255]`, so the red plane holds `0 ≠ -1`.  (The chroma products vanish
at 0 for `Fq` exactly as for the C float computation, so the evaluated
model agrees with the C code on this input.) -/
theorem claim_C8_counterexample :
    ¬(((sycc444_to_rgb Fq true true true imgW8).comp 0).data =
        (imgW8.comp 0).data) := by
  decide

def imgW8b : Image :=
  ⟨0, 0, 1, 2, ColorSpace.SYCC,
    [⟨1, 1, 1, 2, 0, 0, 8, false, [0, 255]⟩,
     ⟨1, 1, 1, 2, 0, 0, 8, false, [128, 128]⟩,
     ⟨1, 1, 1, 2, 0, 0, 8, false, [128, 128]⟩]⟩

theorem claim_C8_witness :
    ((sycc444_to_rgb Fq true true true imgW8b).comp 0).data =
        (imgW8b.comp 0).data ∧
    ((sycc444_to_rgb Fq true true true imgW8b).comp 1).data =
        (imgW8b.comp 0).data ∧
    ((sycc444_to_rgb Fq true true true imgW8b).comp 2).data =
        (imgW8b.comp 0).data :=
  claim_C8 Fq imgW8b (by decide) (by decide) (by decide) (by decide)
    (by decide) (by decide) (by decide)

/-- C9: Small-image underflow guard.  For every component requiring
upsampling whose geometry is admissible (offsets below the sampling
factors, destination covered by the replicated source, well-formed source
buffer), the per-component upsampling succeeds — in this model every
source read and destination write is bounds-checked and any violation
returns `none`, so success is exactly in-bounds execution — and this holds
with no lower bound on `wN`/`hN`: in particular destinations with
`wN ≤ dx - 1` or `hN ≤ dy - 1` (e.g. a 1×1 source with `dx = dy = 4`),
because every loop bound of the form `size - (factor - 1)` sits behind an
underflow guard.  The destination has shape `wN × hN`. -/
theorem claim_C9 (img : Image) (c : Comp) (wN hN xoff yoff : Nat)
    (hup : 1 < c.dx ∨ 1 < c.dy) (hdx : 1 ≤ c.dx) (hdy : 1 ≤ c.dy)
    (hwN : wN = if 1 < c.dx then usub32 img.x1 img.x0 else c.w)
    (hhN : hN = if 1 < c.dy then usub32 img.y1 img.y0 else c.h)
    (hxoff : xoff = usub32 (c.dx * c.x0) img.x0)
    (hyoff : yoff = usub32 (c.dy * c.y0) img.y0)
    (hxv : xoff < c.dx) (hyv : yoff < c.dy)
    (hxw : xoff ≤ wN) (hyh : yoff ≤ hN)
    (hcovx : wN ≤ xoff + c.dx * c.w) (hcovy : hN ≤ yoff + c.dy * c.h)
    (hlen : c.data.length = c.w * c.h) :
    (upsampleComp img c).map (fun c2 => (c2.w, c2.h, c2.data.length)) =
      some (wN, hN, wN * hN) := by
  obtain ⟨dstF, hsome, hlenF, -⟩ :=
    upsampleComp_spec img c wN hN xoff yoff hup hdx hdy hwN hhN hxoff hyoff
      hxv hyv hxw hyh hcovx hcovy hlen
  rw [hsome]
  show some (wN, hN, dstF.length) = some (wN, hN, wN * hN)
  rw [hlenF]

def imgW9 : Image :=
  ⟨0, 0, 2, 2, ColorSpace.SYCC, [⟨4, 4, 1, 1, 0, 0, 8, false, [7]⟩]⟩

def cW9 : Comp := ⟨4, 4, 1, 1, 0, 0, 8, false, [7]⟩

theorem claim_C9_witness :
    (upsampleComp imgW9 cW9).map (fun c2 => (c2.w, c2.h, c2.data.length)) =
      some (2, 2, 2 * 2) :=
  claim_C9 imgW9 cW9 2 2 0 0 (by decide) (by decide) (by decide) (by decide)
    (by decide) (by decide) (by decide) (by decide) (by decide) (by decide)
    (by decide) (by decide) (by decide) (by decide)

/-- C1: Upsampler fill contents.  If `upsample_image_components` succeeds
on an image, then for every component `ii` requiring upsampling (with
admissible, non-wrapping offsets `xoff < dx`, `yoff < dy` and well-formed
geometry), destination rows `0..yoff-1` are zero, the first `xoff`
columns of every later row are zero, and every remaining destination
pixel `(X, Yc)` holds the source sample at column `(X - xoff) / dx` and
row `(Yc - yoff) / dy` — nearest-neighbour block replication. -/
theorem claim_C1 (aParams aImage : Bool) (img img2 : Image) (ii : Nat)
    (wN hN xoff yoff : Nat)
    (hrun : upsample_image_components aParams aImage img = some img2)
    (hii : ii < img.comps.length)
    (hup : 1 < (img.comp ii).dx ∨ 1 < (img.comp ii).dy)
    (hdx : 1 ≤ (img.comp ii).dx) (hdy : 1 ≤ (img.comp ii).dy)
    (hwN : wN = if 1 < (img.comp ii).dx then usub32 img.x1 img.x0
      else (img.comp ii).w)
    (hhN : hN = if 1 < (img.comp ii).dy then usub32 img.y1 img.y0
      else (img.comp ii).h)
    (hxoff : xoff = usub32 ((img.comp ii).dx * (img.comp ii).x0) img.x0)
    (hyoff : yoff = usub32 ((img.comp ii).dy * (img.comp ii).y0) img.y0)
    (hxw : xoff ≤ wN) (hyh : yoff ≤ hN)
    (hcovx : wN ≤ xoff + (img.comp ii).dx * (img.comp ii).w)
    (hcovy : hN ≤ yoff + (img.comp ii).dy * (img.comp ii).h)
    (hlen : (img.comp ii).data.length = (img.comp ii).w * (img.comp ii).h) :
    ∀ X Yc, X < wN → Yc < hN →
      rd (img2.comp ii).data (Yc * wN + X) =
        if Yc < yoff then 0
        else if X < xoff then 0
        else rd (img.comp ii).data
          ((Yc - yoff) / (img.comp ii).dy * (img.comp ii).w +
            (X - xoff) / (img.comp ii).dx) := by
  have hcm : img.comp ii ∈ img.comps := by
    unfold Image.comp
    rw [List.getD_eq_getElem _ _ hii]
    exact List.getElem_mem hii
  unfold upsample_image_components at hrun
  have hall : img.comps.all (fun c => c.dx ≤ 1 && c.dy ≤ 1) = false := by
    rw [List.all_eq_false]
    refine ⟨img.comp ii, hcm, ?_⟩
    simp only [Bool.and_eq_true, decide_eq_true_eq]
    omega
  rw [if_neg (by simp [hall])] at hrun
  cases aParams with
  | false => simp at hrun
  | true =>
    cases aImage with
    | false => simp at hrun
    | true =>
      simp only [Bool.not_true] at hrun
      rw [if_neg (by simp), if_neg (by simp)] at hrun
      cases hcs : upsampleComps img img.comps with
      | none => rw [hcs] at hrun; simp at hrun
      | some comps2 =>
        rw [hcs] at hrun
        simp only [Option.bind_eq_bind, Option.some_bind,
          Option.some.injEq] at hrun
        subst hrun
        obtain ⟨hlen2, hidx⟩ := upsampleComps_some img img.comps comps2 hcs
        have hcomp : upsampleComp img (img.comp ii) =
            some (comps2.getD ii default) := hidx ii hii
        have hxv : xoff < (img.comp ii).dx := by
          by_contra hcon
          rw [upsampleComp_invalid img _ hup
            (Or.inl (by rw [← hxoff]; omega))] at hcomp
          exact Option.noConfusion hcomp
        have hyv : yoff < (img.comp ii).dy := by
          by_contra hcon
          rw [upsampleComp_invalid img _ hup
            (Or.inr (by rw [← hyoff]; omega))] at hcomp
          exact Option.noConfusion hcomp
        obtain ⟨dstF, hsome, hlenF, hchar⟩ :=
          upsampleComp_spec img (img.comp ii) wN hN xoff yoff hup hdx hdy
            hwN hhN hxoff hyoff hxv hyv hxw hyh hcovx hcovy hlen
        rw [hsome] at hcomp
        have hc2 : comps2.getD ii default = { img.comp ii with
            dx := 1, dy := 1, x0 := img.x0, y0 := img.y0,
            w := wN, h := hN, data := dstF } :=
          (Option.some.inj hcomp).symm
        intro X Yc hX hY
        have himg2 : ({ img with comps := comps2 }).comp ii =
            comps2.getD ii default := rfl
        rw [himg2, hc2]
        exact hchar Yc X hY hX

def imgW1 : Image :=
  ⟨0, 0, 4, 4, ColorSpace.SYCC,
    [⟨2, 2, 2, 2, 0, 0, 8, false, [1, 2, 3, 4]⟩]⟩

def imgW1R : Image :=
  ⟨0, 0, 4, 4, ColorSpace.SYCC,
    [⟨1, 1, 4, 4, 0, 0, 8, false,
      [1, 1, 2, 2, 1, 1, 2, 2, 3, 3, 4, 4, 3, 3, 4, 4]⟩]⟩

theorem claim_C1_witness : rd (imgW1R.comp 0).data 11 = 4 := by
  have h := claim_C1 true true imgW1 imgW1R 0 4 4 0 0 (by decide) (by decide)
    (by decide) (by decide) (by decide) (by decide) (by decide) (by decide)
    (by decide) (by decide) (by decide) (by decide) (by decide) (by decide)
    3 2 (by decide) (by decide)
  norm_num at h
  exact h

/-- C3: Odd-origin boundary policy.  In `sycc422_to_rgb`, when `img->x0`
is odd, every row converts its first luma column with `cb = cr = 0` and
consumes no chroma sample there, while column `x ≥ 1` of row `i` reads
chroma sample `i * ((w-1)/2 + (w-1)%2) + (x-1)/2`: columns after the
first are consumed in pairs sharing one `(cb, cr)` sample, and an odd
trailing column consumes one sample alone (all captured by that index
formula).  In `sycc420_to_rgb`, when `img->y0` is odd, every column of
the first output row converts with `cb = cr = 0`, and that row consumes
no chroma: the first row-pair that follows still reads the chroma row
starting at sample 0 (`(x - offx) / 2`). -/
theorem claim_C3 :
    (∀ (F : ChromaMul) (img : Image), img.x0 % 2 = 1 →
      0 < (img.comp 0).w →
      ∀ i, i < (img.comp 0).h →
        (rgbAt (sycc422_to_rgb F true true true img) (i * (img.comp 0).w) =
          sycc_to_rgb F (2 ^ ((img.comp 0).prec - 1))
            (2 ^ (img.comp 0).prec - 1)
            (rd (img.comp 0).data (i * (img.comp 0).w)) 0 0) ∧
        (∀ x, 1 ≤ x → x < (img.comp 0).w →
          rgbAt (sycc422_to_rgb F true true true img)
              (i * (img.comp 0).w + x) =
            sycc_to_rgb F (2 ^ ((img.comp 0).prec - 1))
              (2 ^ (img.comp 0).prec - 1)
              (rd (img.comp 0).data (i * (img.comp 0).w + x))
              (rd (img.comp 1).data
                (i * (((img.comp 0).w - 1) / 2 + ((img.comp 0).w - 1) % 2) +
                  (x - 1) / 2))
              (rd (img.comp 2).data
                (i * (((img.comp 0).w - 1) / 2 + ((img.comp 0).w - 1) % 2) +
                  (x - 1) / 2)))) ∧
    (∀ (F : ChromaMul) (img : Image), img.y0 % 2 = 1 →
      0 < (img.comp 0).h →
      ∀ x, x < (img.comp 0).w →
        rgbAt (sycc420_to_rgb F true true true img) x =
          sycc_to_rgb F (2 ^ ((img.comp 0).prec - 1))
            (2 ^ (img.comp 0).prec - 1) (rd (img.comp 0).data x) 0 0) ∧
    (∀ (F : ChromaMul) (img : Image), img.y0 % 2 = 1 →
      3 ≤ (img.comp 0).h →
      ∀ x, img.x0 % 2 ≤ x → x < (img.comp 0).w →
        rgbAt (sycc420_to_rgb F true true true img) ((img.comp 0).w + x) =
          sycc_to_rgb F (2 ^ ((img.comp 0).prec - 1))
            (2 ^ (img.comp 0).prec - 1)
            (rd (img.comp 0).data ((img.comp 0).w + x))
            (rd (img.comp 1).data ((x - img.x0 % 2) / 2))
            (rd (img.comp 2).data ((x - img.x0 % 2) / 2))) := by
  refine ⟨?_, ?_, ?_⟩
  · intro F img hodd hw i hi
    obtain ⟨-, -, -, hout, -⟩ := rows422_spec F
      (2 ^ ((img.comp 0).prec - 1)) (2 ^ (img.comp 0).prec - 1)
      (rd (img.comp 0).data) (rd (img.comp 1).data) (rd (img.comp 2).data)
      1 ((img.comp 0).w - 1) ((img.comp 0).w) (by omega) (by omega)
      (img.comp 0).h ⟨0, 0, 0, fun _ => (0, 0, 0)⟩
    dsimp only at hout
    have hmul : ∀ x, x < (img.comp 0).w →
        i * (img.comp 0).w + x < (img.comp 0).w * (img.comp 0).h := by
      intro x hx
      have h2 : (i + 1) * (img.comp 0).w ≤
          (img.comp 0).h * (img.comp 0).w :=
        Nat.mul_le_mul_right _ (by omega)
      have h3 : (i + 1) * (img.comp 0).w =
          i * (img.comp 0).w + (img.comp 0).w := Nat.succ_mul _ _
      have h4 : (img.comp 0).w * (img.comp 0).h =
          (img.comp 0).h * (img.comp 0).w := Nat.mul_comm _ _
      omega
    constructor
    · have hb0 : i * (img.comp 0).w <
          (img.comp 0).w * (img.comp 0).h := by
        have := hmul 0 hw
        omega
      rw [sycc422_rgbAt F img _ hb0]
      unfold pix422 fin422St
      rw [hodd]
      have ha := hout i 0 hi hw
      simp only [Nat.zero_add, Nat.add_zero] at ha
      rw [if_pos (⟨trivial, Nat.zero_lt_one⟩ : True ∧ 0 < 1)] at ha
      exact ha
    · intro x hx1 hx
      rw [sycc422_rgbAt F img _ (hmul x hx)]
      unfold pix422 fin422St
      rw [hodd]
      have hb := hout i x hi hx
      simp only [Nat.zero_add, Nat.add_zero] at hb
      rw [if_neg (by omega : ¬(x = 0 ∧ 0 < 1))] at hb
      exact hb
  · intro F img hoddy hh x hx
    have hb0 : x < (img.comp 0).w * (img.comp 0).h := by
      have h2 : (img.comp 0).w * 1 ≤ (img.comp 0).w * (img.comp 0).h :=
        Nat.mul_le_mul_left _ (by omega)
      have h3 : (img.comp 0).w * 1 = (img.comp 0).w := Nat.mul_one _
      omega
    rw [sycc420_rgbAt F img x hb0]
    unfold pix420 fin420St
    rw [hoddy]
    have hsp := run420_spec F (2 ^ ((img.comp 0).prec - 1))
      (2 ^ (img.comp 0).prec - 1) (rd (img.comp 0).data)
      (rd (img.comp 1).data) (rd (img.comp 2).data) (img.comp 0).w
      (img.x0 % 2) ((img.comp 0).w - img.x0 % 2) 1 ((img.comp 0).h - 1)
      (by omega) (by omega) (by omega)
    exact hsp.1 (by omega) x hx
  · intro F img hoddy hh3 x hx0 hx
    have hb0 : (img.comp 0).w + x < (img.comp 0).w * (img.comp 0).h := by
      have h2 : (img.comp 0).w * 2 ≤ (img.comp 0).w * (img.comp 0).h :=
        Nat.mul_le_mul_left _ (by omega)
      omega
    rw [sycc420_rgbAt F img _ hb0]
    unfold pix420 fin420St
    rw [hoddy]
    have hsp := run420_spec F (2 ^ ((img.comp 0).prec - 1))
      (2 ^ (img.comp 0).prec - 1) (rd (img.comp 0).data)
      (rd (img.comp 1).data) (rd (img.comp 2).data) (img.comp 0).w
      (img.x0 % 2) ((img.comp 0).w - img.x0 % 2) 1 ((img.comp 0).h - 1)
      (by omega) (by omega) (by omega)
    have hb := hsp.2.1 0 x (by omega) hx
    simp only [Nat.zero_mul, Nat.one_mul, Nat.add_zero, Nat.zero_add] at hb
    rw [if_neg (by omega : ¬(x = 0 ∧ 0 < img.x0 % 2))] at hb
    exact hb

def imgW3 : Image :=
  ⟨1, 0, 4, 1, ColorSpace.SYCC,
    [⟨1, 1, 3, 1, 0, 0, 8, false, [10, 20, 30]⟩,
     ⟨2, 1, 2, 1, 0, 0, 8, false, [128, 130]⟩,
     ⟨2, 1, 2, 1, 0, 0, 8, false, [128, 130]⟩]⟩

def imgW3b : Image :=
  ⟨1, 1, 3, 5, ColorSpace.SYCC,
    [⟨1, 1, 2, 4, 0, 0, 8, false, [50, 51, 52, 53, 54, 55, 56, 57]⟩,
     ⟨2, 2, 1, 2, 0, 0, 8, false, [128, 131]⟩,
     ⟨2, 2, 1, 2, 0, 0, 8, false, [128, 131]⟩]⟩

theorem claim_C3_witness :
    (rgbAt (sycc422_to_rgb Fq true true true imgW3) 0 =
      sycc_to_rgb Fq 128 255 10 0 0) ∧
    (rgbAt (sycc422_to_rgb Fq true true true imgW3) 1 =
      sycc_to_rgb Fq 128 255 20 128 128) ∧
    (rgbAt (sycc420_to_rgb Fq true true true imgW3b) 0 =
      sycc_to_rgb Fq 128 255 50 0 0) ∧
    (rgbAt (sycc420_to_rgb Fq true true true imgW3b) 3 =
      sycc_to_rgb Fq 128 255 53 128 128) :=
  ⟨(claim_C3.1 Fq imgW3 (by decide) (by decide) 0 (by decide)).1,
   (claim_C3.1 Fq imgW3 (by decide) (by decide) 0 (by decide)).2 1
     (by decide) (by decide),
   claim_C3.2.1 Fq imgW3b (by decide) (by decide) 0 (by decide),
   claim_C3.2.2 Fq imgW3b (by decide) (by decide) 1 (by decide) (by decide)⟩

/-- C10: In `sycc420_to_rgb`, when the luma height remaining after the
odd-y0 offset (`loopmaxh = maxh - offy`) is odd, the final unpaired luma
row is converted WITHOUT the odd-x0 boundary policy: its columns pair
from column 0 over the full width, the chroma index for column `x` being
`loopmaxh/2 * cc + x/2` — so the first column (`x = 0`) reads the real
chroma sample `loopmaxh/2 * cc` even when `img->x0` is odd, in contrast
with the paired rows, whose first column converts with neutral
`cb = cr = 0` when `img->x0` is odd (second conjunct). -/
theorem claim_C10 (F : ChromaMul) (img : Image)
    (hw : 0 < (img.comp 0).w)
    (hlh : ((img.comp 0).h - img.y0 % 2) % 2 = 1) :
    (∀ x, x < (img.comp 0).w →
      rgbAt (sycc420_to_rgb F true true true img)
          (((img.comp 0).h - 1) * (img.comp 0).w + x) =
        sycc_to_rgb F (2 ^ ((img.comp 0).prec - 1))
          (2 ^ (img.comp 0).prec - 1)
          (rd (img.comp 0).data
            (((img.comp 0).h - 1) * (img.comp 0).w + x))
          (rd (img.comp 1).data
            (((img.comp 0).h - img.y0 % 2) / 2 *
                (((img.comp 0).w - img.x0 % 2) / 2 +
                  ((img.comp 0).w - img.x0 % 2) % 2) + x / 2))
          (rd (img.comp 2).data
            (((img.comp 0).h - img.y0 % 2) / 2 *
                (((img.comp 0).w - img.x0 % 2) / 2 +
                  ((img.comp 0).w - img.x0 % 2) % 2) + x / 2))) ∧
    (img.x0 % 2 = 1 → ∀ p, p < ((img.comp 0).h - img.y0 % 2) / 2 →
      rgbAt (sycc420_to_rgb F true true true img)
          ((img.y0 % 2 + 2 * p) * (img.comp 0).w) =
        sycc_to_rgb F (2 ^ ((img.comp 0).prec - 1))
          (2 ^ (img.comp 0).prec - 1)
          (rd (img.comp 0).data ((img.y0 % 2 + 2 * p) * (img.comp 0).w))
          0 0) := by
  have hsp := run420_spec F (2 ^ ((img.comp 0).prec - 1))
    (2 ^ (img.comp 0).prec - 1) (rd (img.comp 0).data)
    (rd (img.comp 1).data) (rd (img.comp 2).data) (img.comp 0).w
    (img.x0 % 2) ((img.comp 0).w - img.x0 % 2) (img.y0 % 2)
    ((img.comp 0).h - img.y0 % 2) (by omega) (by omega) (by omega)
  constructor
  · intro x hx
    have hD := hsp.2.2.2 hlh x hx
    have hmaxh1 : ((img.comp 0).h - 1) * (img.comp 0).w =
        img.y0 % 2 * (img.comp 0).w +
          ((img.comp 0).h - img.y0 % 2) / 2 * (2 * (img.comp 0).w) := by
      have h5 : (img.comp 0).h - 1 =
          img.y0 % 2 + 2 * (((img.comp 0).h - img.y0 % 2) / 2) := by omega
      rw [h5]
      ring
    have hb0 : ((img.comp 0).h - 1) * (img.comp 0).w + x <
        (img.comp 0).w * (img.comp 0).h := by
      have h2 : ((img.comp 0).h - 1 + 1) * (img.comp 0).w ≤
          (img.comp 0).h * (img.comp 0).w :=
        Nat.mul_le_mul_right _ (by omega)
      have h3 : ((img.comp 0).h - 1 + 1) * (img.comp 0).w =
          ((img.comp 0).h - 1) * (img.comp 0).w + (img.comp 0).w :=
        Nat.succ_mul _ _
      have h4 : (img.comp 0).w * (img.comp 0).h =
          (img.comp 0).h * (img.comp 0).w := Nat.mul_comm _ _
      omega
    rw [sycc420_rgbAt F img _ hb0]
    unfold pix420 fin420St
    rw [hmaxh1]
    exact hD
  · intro hoddx p hp
    have hB := hsp.2.1 p 0 hp hw
    rw [if_pos (⟨rfl, by omega⟩ : (0:Nat) = 0 ∧ 0 < img.x0 % 2)] at hB
    have hidx : (img.y0 % 2 + 2 * p) * (img.comp 0).w =
        img.y0 % 2 * (img.comp 0).w + p * (2 * (img.comp 0).w) := by
      ring
    have hb0 : (img.y0 % 2 + 2 * p) * (img.comp 0).w <
        (img.comp 0).w * (img.comp 0).h := by
      have h2 : (img.y0 % 2 + 2 * p + 1) * (img.comp 0).w ≤
          (img.comp 0).h * (img.comp 0).w :=
        Nat.mul_le_mul_right _ (by omega)
      have h3 : (img.y0 % 2 + 2 * p + 1) * (img.comp 0).w =
          (img.y0 % 2 + 2 * p) * (img.comp 0).w + (img.comp 0).w :=
        Nat.succ_mul _ _
      have h4 : (img.comp 0).w * (img.comp 0).h =
          (img.comp 0).h * (img.comp 0).w := Nat.mul_comm _ _
      omega
    rw [sycc420_rgbAt F img _ hb0]
    unfold pix420 fin420St
    rw [hidx]
    simp only [Nat.add_zero] at hB
    exact hB

def imgW10 : Image :=
  ⟨1, 0, 3, 3, ColorSpace.SYCC,
    [⟨1, 1, 2, 3, 0, 0, 8, false, [1, 2, 3, 4, 5, 6]⟩,
     ⟨2, 2, 1, 2, 0, 0, 8, false, [128, 140]⟩,
     ⟨2, 2, 1, 2, 0, 0, 8, false, [128, 140]⟩]⟩

theorem claim_C10_witness :
    (rgbAt (sycc420_to_rgb Fq true true true imgW10) 4 =
      sycc_to_rgb Fq 128 255 5 140 140) ∧
    (rgbAt (sycc420_to_rgb Fq true true true imgW10) 0 =
      sycc_to_rgb Fq 128 255 1 0 0) :=
  ⟨(claim_C10 Fq imgW10 (by decide) (by decide)).1 0 (by decide),
   (claim_C10 Fq imgW10 (by decide) (by decide)).2 (by decide) 0 (by decide)⟩
